import Mathlib

/-!
Verification development for the Swrd session-context distiller.

The TypeScript sources are shallowly embedded below.  The per-session SQLite
database is modelled as an explicit record of tables (lists of rows); the
`entries` AUTOINCREMENT id is a counter carried in the state, the FTS5 table's
implicit rowid is modelled as `max rowid + 1` (SQLite's assignment for tables
without AUTOINCREMENT).  `created_at` timestamps and the raw-JSON encodings of
`tool_calls` / `related_files` are not modelled (rows store the structured
values directly); no claim concerns them.  The FTS5 MATCH relation and the
BM25 rank are external to the source (they live in SQLite), so retrieval takes
them as parameters (`matchQ`, `rk`); everything else is translated from the
repository code.
-/

/-- One buffered tool call, as appended by the on-tool hook
(`{tool_name, tool_input, ts}`; the unused `ts` field is not modelled).
`tool_input` is a JS object; the code only ever reads string-coerced fields,
so it is modelled as an association list of string keys to string values. -/
structure BufferedCall where
  tool_name : String
  tool_input : List (String × String)
deriving DecidableEq, Repr

/-- Field lookup in a `tool_input` object: `none` models a JS `undefined`. -/
def inputGet (ti : List (String × String)) (k : String) : Option String :=
  (ti.find? (fun p => p.1 == k)).map Prod.snd

/-- Splitting a character list at every separator character, with the same
piece semantics as JS `String.split` on a one-character separator (n
separators give n+1 pieces, empty pieces included).  Structural recursion so
that concrete runs reduce inside the kernel. -/
def splitCh (p : Char → Bool) : List Char → List String
  | [] => [""]
  | c :: rest =>
    if p c then "" :: splitCh p rest
    else
      match splitCh p rest with
      | [] => [String.mk [c]]
      | s :: tail => (String.mk [c] ++ s) :: tail

/-- Joining strings with a separator (JS `Array.join`), structurally. -/
def joinSep (sep : String) : List String → String
  | [] => ""
  | [s] => s
  | s :: rest => s ++ sep ++ joinSep sep rest

/-- Decimal parsing of an all-digit string (the shape `parseInt(v, 10)` meets
on the values this program stores), structurally. -/
def parseDecimal? (s : String) : Option Nat :=
  if s.data ≠ [] ∧ s.data.all Char.isDigit then
    some (s.data.foldl (fun n c => n * 10 + (c.toNat - 48)) 0)
  else none

/-- The compact stored summary of one tool call (`summarizeCall`'s output):
the tool name plus the kept key/value fields, in insertion order. -/
structure CallSummary where
  tool : String
  fields : List (String × String)
deriving DecidableEq, Repr

/-- Field lookup on a stored call summary. -/
def CallSummary.get (c : CallSummary) (k : String) : Option String :=
  inputGet c.fields k

/-- One row of the `entries` table (`created_at` omitted, see header). -/
structure Entry where
  id : Nat
  prompt_index : Nat
  file_path : Option String
  entry_type : String
  tool_calls : List CallSummary
  description : Option String
  tags : Option String
  related_files : List String
  semantic_group : Option String
  confidence : Option ℚ
  low_relevance : Bool
  annotation_status : String
deriving DecidableEq, Repr

/-- One document of the standalone `entries_fts` FTS5 table: the four indexed
text columns. -/
structure FtsDoc where
  file_path : String
  description : String
  tags : String
  semantic_group : String
deriving DecidableEq, Repr

/-- The per-session database: `entries`, `entries_fts` (rowid plus document),
`fts_map` (fts rowid, entry id), `entry_links` (source, target, type) and the
`session_state` key/value table, plus the AUTOINCREMENT counter for entries. -/
structure Db where
  entries : List Entry
  fts : List (Nat × FtsDoc)
  fts_map : List (Nat × Nat)
  links : List (Nat × Nat × String)
  session_state : List (String × String)
  nextEntryId : Nat
deriving DecidableEq, Repr

/-- The freshly created (empty-schema) database, as after `createSchema`. -/
def emptyDb : Db := ⟨ [], [], [], [], [], 1⟩

/-- SQLite rowid assignment for a table without AUTOINCREMENT:
one more than the largest rowid in use. -/
def freshFtsRowid (fts : List (Nat × FtsDoc)) : Nat :=
  (fts.map Prod.fst).foldr max 0 + 1

/-- `sanitizeId` from db.ts: `id.replace(/[^a-zA-Z0-9_-]/g, '_')`. -/
def sanitizeId (id : String) : String :=
  String.mk (id.data.map (fun c => if c.isAlphanum ∨ c = '_' ∨ c = '-' then c else '_'))

/-- The per-session database filename chosen by `openDb`. -/
def dbFileName (sessionId : String) : String :=
  sanitizeId sessionId ++ ".db"

/-- `getState` from db.ts. -/
def getState (db : Db) (key : String) : Option String :=
  (db.session_state.find? (fun p => p.1 == key)).map Prod.snd

/-- `setState` from db.ts (`INSERT OR REPLACE` on the `key` primary key). -/
def setState (db : Db) (key value : String) : Db :=
  if (db.session_state.find? (fun p => p.1 == key)).isSome then
    { db with session_state := db.session_state.map (fun p => if p.1 == key then (key, value) else p) }
  else
    { db with session_state := db.session_state ++ [(key, value)] }

/-- `getPromptIndex` from db.ts: `v ? parseInt(v, 10) : 0` (a stored value that
is empty or non-numeric yields 0). -/
def getPromptIndex (db : Db) : Nat :=
  match getState db "prompt_index" with
  | some v => if v = "" then 0 else (parseDecimal? v).getD 0
  | none => 0

/-- `setPromptIndex` from db.ts. -/
def setPromptIndex (db : Db) (idx : Nat) : Db :=
  setState db "prompt_index" (toString idx)

/-- `insertEntry` from db.ts: insert the entries row (status `pending`,
defaults for the annotation columns), an FTS document holding just the file
path, and the rowid mapping.  Returns the new entry id with the new state. -/
def insertEntry (db : Db) (promptIndex : Nat) (filePath : Option String)
    (entryType : String) (toolCalls : List CallSummary) : Nat × Db :=
  let entryId := db.nextEntryId
  let row : Entry :=
    ⟨ entryId, promptIndex, filePath, entryType, toolCalls,
      none, none, [], none, none, false, "pending"⟩
  let ftsRowid := freshFtsRowid db.fts
  (entryId,
   { db with
      entries := db.entries ++ [row],
      fts := db.fts ++ [(ftsRowid, ⟨ filePath.getD "", "", "", ""⟩)],
      fts_map := db.fts_map ++ [(ftsRowid, entryId)],
      nextEntryId := db.nextEntryId + 1 })

/-- `annotateEntry` from db.ts: update the entries row, delete the old FTS
row and mapping (when a mapping exists), then insert a fresh FTS document with
the updated four fields and the new mapping. -/
def annotateEntry (db : Db) (id : Nat) (description tags semanticGroup : String)
    (relatedFiles : List String) (confidence : ℚ) (lowRelevance : Bool) : Db :=
  let entries := db.entries.map (fun e =>
    if e.id = id then
      { e with description := some description, tags := some tags,
               semantic_group := some semanticGroup,
               related_files := relatedFiles, confidence := some confidence,
               low_relevance := lowRelevance, annotation_status := "annotated" }
    else e)
  let fp : String :=
    match entries.find? (fun e => e.id == id) with
    | some e => e.file_path.getD ""
    | none => ""
  let mapping := db.fts_map.find? (fun m => m.2 == id)
  let fts' :=
    match mapping with
    | some m => db.fts.filter (fun p => p.1 ≠ m.1)
    | none => db.fts
  let ftsMap' :=
    match mapping with
    | some _ => db.fts_map.filter (fun m => m.2 ≠ id)
    | none => db.fts_map
  let newRowid := freshFtsRowid fts'
  { db with
     entries := entries,
     fts := fts' ++ [(newRowid, ⟨ fp, description, tags, semanticGroup⟩)],
     fts_map := ftsMap' ++ [(newRowid, id)] }

/-- `insertSummaryEntry` from db.ts: a row with `entry_type = 'summary'`,
pre-marked `annotated`, with NULL file path and semantic group, plus an FTS
document over `{description, tags}`. -/
def insertSummaryEntry (db : Db) (promptIndex : Nat) (summary tags : String) : Nat × Db :=
  let entryId := db.nextEntryId
  let row : Entry :=
    ⟨ entryId, promptIndex, none, "summary", [],
      some summary, some tags, [], none, none, false, "annotated"⟩
  let ftsRowid := freshFtsRowid db.fts
  (entryId,
   { db with
      entries := db.entries ++ [row],
      fts := db.fts ++ [(ftsRowid, ⟨ "", summary, tags, ""⟩)],
      fts_map := db.fts_map ++ [(ftsRowid, entryId)],
      nextEntryId := db.nextEntryId + 1 })

/-- `insertLink` from db.ts: `INSERT OR IGNORE` under the
`UNIQUE(source_id, target_id, link_type)` constraint. -/
def insertLink (db : Db) (sourceId targetId : Nat) (linkType : String) : Db :=
  if (sourceId, targetId, linkType) ∈ db.links then db
  else { db with links := db.links ++ [(sourceId, targetId, linkType)] }

/-- `markFailed` from db.ts: set every pending/annotating entry at the given
prompt index to `failed`. -/
def markFailed (db : Db) (promptIndex : Nat) : Db :=
  { db with entries := db.entries.map (fun e =>
      if e.prompt_index = promptIndex ∧
         (e.annotation_status = "pending" ∨ e.annotation_status = "annotating") then
        { e with annotation_status := "failed" }
      else e) }

/-- `markAnnotating` from db.ts: set the listed ids to `annotating`
(no-op for an empty id list, as in the source). -/
def markAnnotating (db : Db) (ids : List Nat) : Db :=
  if ids.isEmpty then db
  else { db with entries := db.entries.map (fun e =>
          if e.id ∈ ids then { e with annotation_status := "annotating" } else e) }

/-- The inline `UPDATE entries SET annotation_status = 'failed' WHERE id = ?`
statement of annotate.ts. -/
def setFailedById (db : Db) (id : Nat) : Db :=
  { db with entries := db.entries.map (fun e =>
      if e.id = id then { e with annotation_status := "failed" } else e) }

/-- `getPendingEntries` from db.ts. -/
def getPendingEntries (db : Db) (promptIndex : Nat) : List Entry :=
  db.entries.filter (fun e => decide (e.prompt_index = promptIndex ∧
    (e.annotation_status = "pending" ∨ e.annotation_status = "annotating")))

/-- `getFailedEntries` from db.ts: failed entries, most recent prompt first
(`ORDER BY prompt_index DESC LIMIT ?`; a stable sort models the ordering). -/
def getFailedEntries (db : Db) (limit : Nat) : List Entry :=
  (List.insertionSort (fun a b : Entry => b.prompt_index ≤ a.prompt_index)
    (db.entries.filter (fun e => e.annotation_status == "failed"))).take limit

/-- `IGNORED_TOOLS` from config.ts. -/
def IGNORED_TOOLS : List String :=
  [ "EnterPlanMode", "ExitPlanMode", "AskUserQuestion",
    "TodoRead", "TodoWrite", "TaskCreate", "TaskUpdate",
    "TaskList", "TaskGet"]

/-- `FILE_TOOLS` from config.ts. -/
def FILE_TOOLS : List String :=
  [ "Read", "Write", "Edit", "Glob", "Grep", "NotebookEdit"]

/-- `WRITE_TOOLS` from config.ts. -/
def WRITE_TOOLS : List String := [ "Write", "Edit", "NotebookEdit"]

/-- `TOOL_KEY_FIELDS` from config.ts. -/
def TOOL_KEY_FIELDS : List (String × String) :=
  [ ("Read", "file_path"), ("Write", "file_path"), ("Edit", "file_path"),
    ("NotebookEdit", "notebook_path"), ("Glob", "pattern"), ("Grep", "pattern"),
    ("Bash", "command"), ("WebSearch", "query"), ("WebFetch", "url"),
    ("Task", "prompt")]

/-- Lookup of a tool's configured key field. -/
def toolKeyField (tool : String) : Option String :=
  inputGet TOOL_KEY_FIELDS tool

/-- `CHARS_PER_TOKEN` from config.ts. -/
def CHARS_PER_TOKEN : Nat := 4

/-- `FTS_RESULT_LIMIT` from config.ts. -/
def FTS_RESULT_LIMIT : Nat := 50

/-- `GROUP_EXPANSION_LIMIT` from config.ts. -/
def GROUP_EXPANSION_LIMIT : Nat := 3

/-- `FTS_MAX_TERMS` from config.ts. -/
def FTS_MAX_TERMS : Nat := 16

/-- `truncate` from entry-tracker.ts (and, with the same text, from
self-annotate.ts): cut to `max` characters and append an ellipsis. -/
def truncate (s : String) (max : Nat) : String :=
  if max < s.length then (String.mk (s.data.take max)) ++ "..." else s

/-- `classifyTool` from entry-tracker.ts. -/
def classifyTool (name : String) : String :=
  if name = "Bash" then "command"
  else if name = "WebSearch" ∨ name = "WebFetch" then "web"
  else if name = "Task" then "research"
  else "research"

/-- `summarizeCall` from entry-tracker.ts: keep the tool name, the configured
key field (truncated to 300) and a few tool-specific extras.  The JS truthiness
tests (`if (tool_input.old_string)` etc.) are modelled as present-and-nonempty. -/
def summarizeCall (call : BufferedCall) : CallSummary :=
  let keyPart : List (String × String) :=
    match toolKeyField call.tool_name with
    | some kf =>
      match inputGet call.tool_input kf with
      | some v => [(kf, truncate v 300)]
      | none => []
    | none => []
  let extras : List (String × String) :=
    if call.tool_name = "Edit" then
      (match inputGet call.tool_input "old_string" with
       | some s => if s = "" then [] else [("old_string", truncate s 200)]
       | none => []) ++
      (match inputGet call.tool_input "new_string" with
       | some s => if s = "" then [] else [("new_string", truncate s 200)]
       | none => [])
    else if call.tool_name = "Grep" then
      (match inputGet call.tool_input "glob" with
       | some s => if s = "" then [] else [("glob", s)]
       | none => []) ++
      (match inputGet call.tool_input "path" with
       | some s => if s = "" then [] else [("path", s)]
       | none => [])
    else if call.tool_name = "Bash" ∨ call.tool_name = "Task" then
      (match inputGet call.tool_input "description" with
       | some s => if s = "" then [] else [("description", truncate s 200)]
       | none => [])
    else []
  ⟨ call.tool_name, keyPart ++ extras⟩

/-- Ordered-map insertion matching a JS `Map`'s key insertion order:
append the call to an existing group, or add a new group at the end. -/
def groupUpsert (gs : List (String × List BufferedCall)) (k : String)
    (c : BufferedCall) : List (String × List BufferedCall) :=
  match gs with
  | [] => [(k, [c])]
  | (k', cs) :: rest =>
    if k' = k then (k', cs ++ [c]) :: rest else (k', cs) :: groupUpsert rest k c

/-- The grouping pass of `flushToEntries`: drop ignored tools, group file
tools under `tool_input.file_path ?? tool_input.notebook_path ?? '_unknown'`,
collect everything else as standalone calls in order. -/
def buildGroups (calls : List BufferedCall) :
    List (String × List BufferedCall) × List BufferedCall :=
  calls.foldl (fun acc call =>
    if call.tool_name ∈ IGNORED_TOOLS then acc
    else if call.tool_name ∈ FILE_TOOLS then
      let fp := ((inputGet call.tool_input "file_path").orElse
                  (fun _ => inputGet call.tool_input "notebook_path")).getD "_unknown"
      (groupUpsert acc.1 fp call, acc.2)
    else (acc.1, acc.2 ++ [call])) ([], [])

/-- `flushToEntries` from entry-tracker.ts: insert one entry per file group
(`file_change` when any member is a write tool, else `research`), then one
entry per standalone call (typed by `classifyTool`, keyed by the truncated
configured key field).  Returns the inserted ids with the new state. -/
def flushToEntries (db : Db) (promptIndex : Nat) (calls : List BufferedCall) :
    List Nat × Db :=
  let (fileGroups, standalone) := buildGroups calls
  let step1 := fileGroups.foldl (fun (acc : List Nat × Db) fg =>
    let hasWrite := fg.2.any (fun c => c.tool_name ∈ WRITE_TOOLS)
    let entryType := if hasWrite then "file_change" else "research"
    let r := insertEntry acc.2 promptIndex (some fg.1) entryType (fg.2.map summarizeCall)
    (acc.1 ++ [r.1], r.2)) ([], db)
  standalone.foldl (fun (acc : List Nat × Db) call =>
    let entryType := classifyTool call.tool_name
    let filePath : Option String :=
      match toolKeyField call.tool_name with
      | some kf => some (truncate ((inputGet call.tool_input kf).getD "") 500)
      | none => none
    let r := insertEntry acc.2 promptIndex filePath entryType [summarizeCall call]
    (acc.1 ++ [r.1], r.2)) step1

/-- The self-annotator's fixed confidence 0.3, as a literal rational
(constructed without `/` so that concrete runs reduce inside the kernel). -/
def selfConfidence : ℚ := ⟨ 3, 10, by decide, by decide⟩

/-- The `confidence ?? 0.5` default of the LLM annotation loop, as a literal
rational. -/
def defaultConfidence : ℚ := ⟨ 1, 2, by decide, by decide⟩

/-- `shortenPath` from self-annotate.ts: keep a path of at most three
segments as-is, else render `.../<last three segments>`. -/
def shortenPath (p : String) : String :=
  let parts := (splitCh (fun c => c == '/') p.data).filter (fun s => s ≠ "")
  if parts.length ≤ 3 then p
  else ".../" ++ joinSep "/" (parts.drop (parts.length - 3))

/-- `KEYWORD_STOPS` from self-annotate.ts. -/
def KEYWORD_STOPS : List String :=
  [ "the", "a", "an", "is", "are", "was", "were", "be", "been",
    "to", "of", "in", "for", "on", "with", "at", "by", "from",
    "and", "or", "but", "not", "this", "that", "it", "its",
    "run", "running", "use", "using", "all"]

/-- Character class kept by `extractKeywords`'s `[^\w\s-]` replacement:
word characters, whitespace and the hyphen. -/
def keywordChar (c : Char) : Bool :=
  c.isAlphanum || c == '_' || c.isWhitespace || c == '-'

/-- `extractKeywords` from self-annotate.ts: lowercase, blank out everything
outside `[\w\s-]`, split on whitespace, keep tokens of length > 2 that are not
keyword stopwords. -/
def extractKeywords (text : String) : List String :=
  (splitCh Char.isWhitespace
      ((text.data.map Char.toLower).map
        (fun c => if keywordChar c then c else ' '))).filter
    (fun w => decide (2 < w.length) && !(KEYWORD_STOPS.contains w))

/-- The `shortPath` local of `buildDescription`: empty when the entry has no
(truthy) file path. -/
def shortPathOf (entry : Entry) : String :=
  match entry.file_path with
  | some p => if p = "" then "" else shortenPath p
  | none => ""

/-- `buildDescription` from self-annotate.ts: the rule-based per-entry
description, switched on `entry_type`.  JS truthiness tests on call-summary
fields are modelled as present-and-nonempty. -/
def buildDescription (entry : Entry) (calls : List CallSummary) : String :=
  let shortPath := shortPathOf entry
  if entry.entry_type = "file_change" then
    let tools := calls.map CallSummary.tool
    if "Write" ∈ tools ∧ "Edit" ∉ tools then "Created " ++ shortPath
    else if "Edit" ∈ tools then
      let editCalls := calls.filter (fun c => c.tool == "Edit")
      "Modified " ++ shortPath ++ " (" ++ toString editCalls.length ++ " edit" ++
        (if 1 < editCalls.length then "s" else "") ++ ")"
    else "Changed " ++ shortPath
  else if entry.entry_type = "research" then
    let tools := calls.map CallSummary.tool
    if "Glob" ∈ tools ∨ "Grep" ∈ tools then
      match (calls.find? (fun c => (c.get "pattern").getD "" ≠ "")).bind
              (fun c => c.get "pattern") with
      | some pattern => "Searched for \"" ++ truncate pattern 60 ++ "\""
      | none => "Explored " ++ (if shortPath = "" then "codebase" else shortPath)
    else if "Read" ∈ tools then "Read " ++ shortPath
    else if "Task" ∈ tools then
      match (calls.find? (fun c => (c.get "description").getD "" ≠ "")).bind
              (fun c => c.get "description") with
      | some desc => "Subagent: " ++ truncate desc 80
      | none => "Ran subagent task"
    else "Researched " ++ (if shortPath = "" then "codebase" else shortPath)
  else if entry.entry_type = "command" then
    let cmd := (calls.head?.bind (fun c => c.get "command")).getD ""
    let desc := (calls.head?.bind (fun c => c.get "description")).getD ""
    if desc ≠ "" then "Ran: " ++ truncate desc 80
    else if cmd ≠ "" then "Ran: " ++ truncate cmd 80
    else "Ran shell command"
  else if entry.entry_type = "web" then
    let query := (calls.head?.bind (fun c => c.get "query")).getD ""
    let url := (calls.head?.bind (fun c => c.get "url")).getD ""
    if query ≠ "" then "Web search: " ++ truncate query 80
    else if url ≠ "" then "Fetched: " ++ truncate url 80
    else "Web activity"
  else
    entry.entry_type ++ " on " ++ (if shortPath = "" then "unknown" else shortPath)

/-- Insertion-ordered set insertion, modelling a JS `Set`'s `add`. -/
def insertUniq {α : Type} [DecidableEq α] (l : List α) (x : α) : List α :=
  if x ∈ l then l else l ++ [x]

/-- `buildTags` from self-annotate.ts: filename, extension and parent
directory of the file path, the entry type, each tool name lowercased,
keywords from call descriptions, and the first five prompt keywords,
deduplicated in insertion order and comma-joined. -/
def buildTags (entry : Entry) (calls : List CallSummary) (userPrompt : String) : String :=
  let tags : List String := []
  let tags :=
    match entry.file_path with
    | some fp =>
      if fp = "" then tags
      else
        let parts := (splitCh (fun c => c == '/') fp.data).filter (fun s => s ≠ "")
        let filename := parts.getLastD ""
        let tags := if filename = "" then tags else insertUniq tags filename
        let ext := (splitCh (fun c => c == '.') filename.data).getLastD ""
        let tags := if ext ≠ "" ∧ ext ≠ filename then insertUniq tags ext else tags
        if 2 ≤ parts.length then insertUniq tags (parts.getD (parts.length - 2) "")
        else tags
    | none => tags
  let tags := insertUniq tags entry.entry_type
  let tags := calls.foldl (fun acc c =>
    if c.tool = "" then acc
    else insertUniq acc (String.mk (c.tool.data.map Char.toLower))) tags
  let tags := calls.foldl (fun acc c =>
    match c.get "description" with
    | some d => if d = "" then acc else (extractKeywords d).foldl insertUniq acc
    | none => acc) tags
  let tags := ((extractKeywords userPrompt).take 5).foldl insertUniq tags
  joinSep "," tags

/-- `buildGroup` from self-annotate.ts: the parent directory of the file path,
its only segment for a one-segment path, else the entry type. -/
def buildGroup (entry : Entry) : String :=
  match entry.file_path with
  | some fp =>
    if fp = "" then entry.entry_type
    else
      let parts := (splitCh (fun c => c == '/') fp.data).filter (fun s => s ≠ "")
      if 2 ≤ parts.length then parts.getD (parts.length - 2) ""
      else match parts.head? with
           | some p => p
           | none => entry.entry_type
  | none => entry.entry_type

/-- `isLowRelevance` from self-annotate.ts.  Every branch of the source
returns `false` (single searches are explicitly kept, single reads are
"borderline — keep it"), so the function is constantly false. -/
def isLowRelevance (_entry : Entry) (_calls : List CallSummary) : Bool := false

/-- `selfAnnotatePrompt` from self-annotate.ts: rule-annotate every
pending/annotating entry at the prompt index, then insert one summary entry
built from the per-entry descriptions and the deduplicated union of tags. -/
def selfAnnotatePrompt (db : Db) (promptIndex : Nat) : Db :=
  let entries := getPendingEntries db promptIndex
  if entries.isEmpty then db
  else
    let userPrompt := (getState db ("prompt_" ++ toString promptIndex)).getD ""
    let db := entries.foldl (fun d e =>
      annotateEntry d e.id (buildDescription e e.tool_calls)
        (buildTags e e.tool_calls userPrompt) (buildGroup e) [] selfConfidence
        (isLowRelevance e e.tool_calls)) db
    let summaryParts := entries.map (fun e => buildDescription e e.tool_calls)
    let summary :=
      if summaryParts.length = 1 then summaryParts.getD 0 ""
      else toString summaryParts.length ++ " activities: " ++
        joinSep "; " (summaryParts.take 3) ++
        (if 3 < summaryParts.length then "..." else "")
    let allTags := joinSep ","
      (entries.map (fun e => buildTags e e.tool_calls userPrompt))
    let uniqueTags := joinSep ","
      (((splitCh (fun c => c == ',') allTags.data).filter (fun s => s ≠ "")).foldl insertUniq [])
    (insertSummaryEntry db promptIndex summary uniqueTags).2

/-- The on-stop hook in `self` annotator mode, starting from the parsed
buffered calls (buffer-file reading, truncation and JSONL parsing are I/O and
are not modelled; `calls = []` covers the absent/empty/unparseable buffer, on
which the source returns before touching the database). -/
def onStopSelf (db : Db) (calls : List BufferedCall) : Db :=
  if calls.isEmpty then db
  else
    let promptIndex := getPromptIndex db
    let db := (flushToEntries db promptIndex calls).2
    selfAnnotatePrompt db promptIndex

/-- `STOPWORDS` from config.ts (FTS query stopwords). -/
def STOPWORDS : List String :=
  [ "the", "a", "an", "is", "are", "was", "were", "be", "been",
    "being", "have", "has", "had", "do", "does", "did", "will",
    "would", "could", "should", "may", "might", "can", "shall",
    "to", "of", "in", "for", "on", "with", "at", "by", "from",
    "this", "that", "these", "those", "it", "its", "and", "or",
    "but", "not", "no", "if", "then", "else", "when", "where",
    "how", "what", "which", "who", "whom", "why", "all", "each",
    "any", "some", "such", "than", "too", "very", "just", "about",
    "into", "through", "during", "before", "after", "above", "below",
    "between", "out", "off", "over", "under", "again", "further",
    "once", "here", "there", "also", "both", "few", "more", "most",
    "other", "only", "own", "same", "so", "up", "down", "now",
    "file", "code", "use", "using", "used", "make", "like",
    "need", "want", "get", "set", "add", "new", "please"]

/-- Character class kept by `buildFtsQuery`'s `[^\w\s\/\.\-]` replacement. -/
def queryChar (c : Char) : Bool :=
  c.isAlphanum || c == '_' || c.isWhitespace || c == '/' || c == '.' || c == '-'

/-- The token list built by `buildFtsQuery`: lowercase, blank out everything
outside `[\w\s/.-]`, split on whitespace, keep non-stopword tokens of length
> 2, take the first sixteen. -/
def ftsTokens (prompt : String) : List String :=
  ((splitCh Char.isWhitespace
      ((prompt.data.map Char.toLower).map
        (fun c => if queryChar c then c else ' '))).filter
    (fun t => decide (2 < t.length) && !(STOPWORDS.contains t))).take FTS_MAX_TERMS

/-- `buildFtsQuery` from retrieve.ts: quote each token and join with OR;
`none` when no token survives. -/
def buildFtsQuery (prompt : String) : Option String :=
  let tokens := ftsTokens prompt
  if tokens.isEmpty then none
  else some (joinSep " OR " (tokens.map (fun t => "\"" ++ t ++ "\"")))

/-- `searchFts` from retrieve.ts.  The SQL joins matching FTS rows through
`fts_map` back to `entries`, keeps rows with `low_relevance = 0`,
`annotation_status = 'annotated'` and `prompt_index < current`, orders by the
BM25 rank and applies the limit.  Which FTS documents MATCH the query and
their ranks are SQLite-internal, so they enter as the parameters `matchQ`
(per FTS rowid) and `rk`; the source projects six entry columns plus the
rank, the model keeps the whole entry row. -/
def searchFts (db : Db) (matchQ : Nat → Bool) (rk : Nat → Int)
    (currentPrompt : Nat) (limit : Nat) : List Entry :=
  let joined : List (Entry × Int) := db.fts.filterMap (fun p =>
    if matchQ p.1 then
      match db.fts_map.find? (fun m => m.1 == p.1) with
      | some m =>
        match db.entries.find? (fun e => e.id == m.2) with
        | some e =>
          if e.low_relevance = false ∧ e.annotation_status = "annotated" ∧
             e.prompt_index < currentPrompt then some (e, rk p.1)
          else none
        | none => none
      | none => none
    else none)
  ((List.insertionSort (fun a b : Entry × Int => a.2 ≤ b.2) joined).map Prod.fst).take limit

/-- `getPreviousSummary` from retrieve.ts: the description of a summary entry
at `promptIndex - 1` (`LIMIT 1`; a NULL description yields null). -/
def getPreviousSummary (db : Db) (promptIndex : Nat) : Option String :=
  (db.entries.find? (fun e =>
    decide ((e.prompt_index : Int) = (promptIndex : Int) - 1 ∧
            e.entry_type = "summary"))).bind Entry.description

/-- `expandGroups` from retrieve.ts: for each seen semantic group, up to
`GROUP_EXPANSION_LIMIT` further annotated, relevant, earlier entries of that
group not already selected, most recent prompt first. -/
def expandGroups (db : Db) (groups : List String) (excludeIds : List Nat)
    (currentPrompt : Nat) : List Entry :=
  groups.flatMap (fun group =>
    (List.insertionSort (fun a b : Entry => b.prompt_index ≤ a.prompt_index)
      (db.entries.filter (fun e => decide (e.semantic_group = some group ∧
        e.low_relevance = false ∧ e.annotation_status = "annotated" ∧
        e.prompt_index < currentPrompt ∧ e.id ∉ excludeIds)))).take GROUP_EXPANSION_LIMIT)

/-- `formatEntry` from retrieve.ts: `[Prompt <N>]: <loc><(group)> — <desc>`
with `loc = file_path ?? entry_type` and the group shown only when truthy. -/
def formatEntry (e : Entry) : String :=
  let loc := e.file_path.getD e.entry_type
  let group :=
    match e.semantic_group with
    | some g => if g = "" then "" else " (" ++ g ++ ")"
    | none => ""
  "[Prompt " ++ toString e.prompt_index ++ "]: " ++ loc ++ group ++ " — " ++
    (e.description.getD "")

/-- The BM25-result selection loop of `retrieveContext`: skip entries with an
empty description, stop at the first line that would push the running
character count past the budget, and record selected ids and seen semantic
groups.  Returns (lines, usedChars, selectedIds, seenGroups). -/
def selectResults (charBudget : Nat) (results : List Entry) (used : Nat)
    (lines : List String) (selIds : List Nat) (groups : List String) :
    List String × Nat × List Nat × List String :=
  match results with
  | [] => (lines, used, selIds, groups)
  | e :: rest =>
    if (e.description.getD "") = "" then
      selectResults charBudget rest used lines selIds groups
    else
      let line := formatEntry e
      if charBudget < used + line.length then (lines, used, selIds, groups)
      else
        let groups' :=
          match e.semantic_group with
          | some g => if g = "" then groups else insertUniq groups g
          | none => groups
        selectResults charBudget rest (used + line.length) (lines ++ [line])
          (insertUniq selIds e.id) groups'

/-- The group-expansion selection loop of `retrieveContext`: same skip and
budget gate (the ids it adds to the selected set are never read again and are
not modelled).  Returns (lines, usedChars). -/
def selectExpansion (charBudget : Nat) (entries : List Entry) (used : Nat)
    (lines : List String) : List String × Nat :=
  match entries with
  | [] => (lines, used)
  | e :: rest =>
    if (e.description.getD "") = "" then
      selectExpansion charBudget rest used lines
    else
      let line := formatEntry e
      if charBudget < used + line.length then (lines, used)
      else selectExpansion charBudget rest (used + line.length) (lines ++ [line])

/-- The `<last_activity>` continuity block. -/
def lastActivityBlock (s : String) : String :=
  "<last_activity>\n" ++ s ++ "\n</last_activity>"

/-- The `<relevant_context>` section around the joined context lines. -/
def relevantBlock (lines : List String) : String :=
  "<relevant_context>\n" ++ joinSep "\n" lines ++ "\n</relevant_context>"

/-- `wrapContext` from retrieve.ts. -/
def wrapContext (sections : List String) : String :=
  "<distilled_session_context>\n" ++ joinSep "\n\n" sections ++
    "\n</distilled_session_context>"

/-- `retrieveContext` from retrieve.ts, paired with its final `usedChars`
counter (the running total of continuity-block and selected-line lengths,
which is what the budget gate compares against). -/
def retrieveContextCore (db : Db) (userPrompt : String) (currentPromptIndex : Nat)
    (tokenBudget : Nat) (matchQ : String → Nat → Bool) (rk : Nat → Int) :
    Option String × Nat :=
  let charBudget := tokenBudget * CHARS_PER_TOKEN
  let prev := getPreviousSummary db currentPromptIndex
  let sections0 : List String :=
    match prev with
    | some s => [lastActivityBlock s]
    | none => []
  let used0 : Nat :=
    match prev with
    | some s => (lastActivityBlock s).length
    | none => 0
  match buildFtsQuery userPrompt with
  | none => (if sections0.isEmpty then none else some (wrapContext sections0), used0)
  | some q =>
    let results := searchFts db (matchQ q) rk currentPromptIndex FTS_RESULT_LIMIT
    if results.isEmpty ∧ sections0.isEmpty then (none, used0)
    else
      let sel := selectResults charBudget results used0 [] [] []
      let expanded :=
        if ¬ sel.2.2.2.isEmpty ∧ sel.2.1 < charBudget then
          selectExpansion charBudget
            (expandGroups db sel.2.2.2 sel.2.2.1 currentPromptIndex) sel.2.1 []
        else ([], sel.2.1)
      let contextLines := sel.1 ++ expanded.1
      let sections :=
        if contextLines.isEmpty then sections0
        else sections0 ++ [relevantBlock contextLines]
      (if sections.isEmpty then none else some (wrapContext sections), expanded.2)

/-- `retrieveContext`'s return value. -/
def retrieveContext (db : Db) (userPrompt : String) (currentPromptIndex : Nat)
    (tokenBudget : Nat) (matchQ : String → Nat → Bool) (rk : Nat → Int) :
    Option String :=
  (retrieveContextCore db userPrompt currentPromptIndex tokenBudget matchQ rk).1

/-- The continuity-block length for a state and current prompt index
(0 when there is no previous-turn summary). -/
def continuityLen (db : Db) (currentPromptIndex : Nat) : Nat :=
  match getPreviousSummary db currentPromptIndex with
  | some s => (lastActivityBlock s).length
  | none => 0

/-- One element of the parsed LLM response's `annotations` array
(annotate.ts's `AnnotationResult['annotations']` items; optional fields are
`Option`, matching the `??` defaults applied at the call site). -/
structure AnnItem where
  entry_id : Nat
  description : String
  tags : String
  related_files : Option (List String)
  low_relevance : Option Bool
  confidence : Option ℚ
  semantic_group : Option String
deriving DecidableEq, Repr

/-- One element of the parsed response's `links` array. -/
structure LinkSpec where
  source_entry_id : Nat
  target_entry_id : Nat
  link_type : String
deriving DecidableEq, Repr

/-- The parsed response's `prompt_summary` object. -/
structure PromptSummary where
  summary : String
  tags : String
deriving DecidableEq, Repr

/-- The parsed LLM response (annotate.ts's `AnnotationResult`). -/
structure AnnotationResult where
  anns : Option (List AnnItem)
  links : Option (List LinkSpec)
  prompt_summary : Option PromptSummary
deriving DecidableEq, Repr

/-- The annotation loop of `annotatePrompt`: `annotateEntry` per returned
annotation, with the source's `??` defaults (group "", no related files,
confidence 0.5, not low-relevance). -/
def applyAnns (db : Db) (l : List AnnItem) : Db :=
  l.foldl (fun d a =>
    annotateEntry d a.entry_id a.description a.tags (a.semantic_group.getD "")
      (a.related_files.getD []) (a.confidence.getD defaultConfidence)
      (a.low_relevance.getD false)) db

/-- The link loop of `annotatePrompt`. -/
def applyLinks (db : Db) (l : List LinkSpec) : Db :=
  l.foldl (fun d lk => insertLink d lk.source_entry_id lk.target_entry_id lk.link_type) db

/-- The application phase of `annotatePrompt`'s try block: annotation loop,
link loop, then the optional prompt-summary insertion. -/
def applyResult (db : Db) (promptIndex : Nat) (r : AnnotationResult) : Db :=
  let db1 := applyAnns db (r.anns.getD [])
  let db2 := applyLinks db1 (r.links.getD [])
  match r.prompt_summary with
  | some ps => (insertSummaryEntry db2 promptIndex ps.summary ps.tags).2
  | none => db2

/-- The input set of an `annotatePrompt` run: current pending/annotating
entries plus up to ten retries (`[...pending, ...retries]`). -/
def annotateInputs (db : Db) (promptIndex : Nat) : List Entry :=
  getPendingEntries db promptIndex ++ getFailedEntries db 10

/-- `annotatePrompt` from annotate.ts.  The HTTP call and JSON parsing are
external; their outcome enters as `llm` — `none` models an exception raised
during the call or parse (the catch branch: `markFailed` at the prompt
index), `some r` the successfully parsed response.  The historical-entries
fetch and prompt-message assembly only feed the provider and are omitted.
After applying a response, every input entry whose id the response did not
annotate is set to `failed`. -/
def annotatePrompt (db : Db) (promptIndex : Nat) (llm : Option AnnotationResult) : Db :=
  let allEntries := annotateInputs db promptIndex
  if allEntries.isEmpty then db
  else
    let db1 := markAnnotating db (allEntries.map Entry.id)
    match llm with
    | none => markFailed db1 promptIndex
    | some r =>
      let annotatedIds := (r.anns.getD []).map AnnItem.entry_id
      let db2 := applyResult db1 promptIndex r
      allEntries.foldl (fun d e =>
        if annotatedIds.contains e.id then d else setFailedById d e.id) db2

/-- The number of summary entries at a prompt index. -/
def countSummary (db : Db) (promptIndex : Nat) : Nat :=
  db.entries.countP (fun e =>
    decide (e.prompt_index = promptIndex ∧ e.entry_type = "summary"))

/-- The multiset of FTS documents currently in the index
(the "FTS index contents": rowids are an artifact of the reindexing). -/
def docMultiset (db : Db) : Multiset FtsDoc :=
  ((db.fts.map Prod.snd : List FtsDoc) : Multiset FtsDoc)

/-- Soundness direction of the FTS-map/entries bijection: every mapping
points at an existing entry. -/
def ftsMapSound (db : Db) : Prop :=
  ∀ m ∈ db.fts_map, ∃ e ∈ db.entries, e.id = m.2

/-- Structural well-formedness of the FTS side of a state, guaranteed for any
real database by the PRIMARY KEY / UNIQUE constraints plus the fact that only
`annotateEntry` deletes FTS rows (always together with their mapping):
distinct FTS rowids, distinct mapping rowids, at most one mapping per entry
id, and every mapping's rowid present in the FTS table. -/
def WFdb (db : Db) : Prop :=
  (db.fts.map Prod.fst).Nodup ∧
  (db.fts_map.map Prod.fst).Nodup ∧
  (db.fts_map.map Prod.snd).Nodup ∧
  ∀ m ∈ db.fts_map, ∃ d, (m.1, d) ∈ db.fts

instance : DecidablePred WFdb := fun db => by
  unfold WFdb
  have : DecidablePred fun m : Nat × Nat => ∃ d, (m.1, d) ∈ db.fts := fun m =>
    decidable_of_iff (∃ p ∈ db.fts, p.1 = m.1) (by
      constructor
      · rintro ⟨ p, hp, h1⟩; exact ⟨ p.2, by simpa [← h1] using hp⟩
      · rintro ⟨ d, hd⟩; exact ⟨ (m.1, d), hd, rfl⟩)
  exact instDecidableAnd

/-- Equality of the observables named by the idempotence claim: the entries
rows, the entry_links table, and the FTS index contents. -/
def obsEq (d1 d2 : Db) : Prop :=
  d1.entries = d2.entries ∧ d1.links = d2.links ∧ docMultiset d1 = docMultiset d2

/-- A map that would rewrite rows matched by `p` is the identity when no row
matches. -/
theorem map_if_id {α : Type} {p : α → Prop} [DecidablePred p] (f : α → α)
    (l : List α) (h : ∀ a ∈ l, ¬ p a) :
    (l.map fun a => if p a then f a else a) = l := by
  conv_rhs => rw [← List.map_id l]
  exact List.map_congr_left (fun a ha => by simp [h a ha])

/-- Claim C9 (counterexample): `sanitizeId` keeps hyphens, so an id containing
a '-' does not map to a name with the '-' replaced by '_' as the claim states. -/
theorem c9_counterexample :
    sanitizeId "abc-def" = "abc-def" ∧ sanitizeId "abc-def" ≠ "abc_def" := by
  decide

/-- Claim C9 (amended): the per-session database filename is the sanitized id
followed by ".db", where sanitization replaces every character that is not an
ASCII letter, digit, underscore or hyphen by '_' and keeps the rest (so '-'
and '_' survive); every output character is in that class, and equal ids
resolve to the same filename. -/
theorem c9_amended :
    ∀ id : String,
      dbFileName id = sanitizeId id ++ ".db" ∧
      (sanitizeId id).data =
        id.data.map (fun c => if c.isAlphanum || c = '_' || c = '-' then c else '_') ∧
      ∀ c ∈ (sanitizeId id).data, c.isAlphanum ∨ c = '_' ∨ c = '-' := by
  intro id
  refine ⟨ rfl, ?_, ?_⟩
  · apply List.map_congr_left
    intro c _
    by_cases h1 : c.isAlphanum <;> by_cases h2 : c = '_' <;> by_cases h3 : c = '-' <;>
      simp [h1, h2, h3]
  · intro c hc
    simp only [sanitizeId, List.mem_map] at hc
    obtain ⟨ a, _, ha⟩ := hc
    by_cases h1 : a.isAlphanum
    · rw [if_pos (Or.inl h1)] at ha; exact Or.inl (ha ▸ h1)
    · by_cases h2 : a = '_'
      · rw [if_pos (Or.inr (Or.inl h2))] at ha; exact Or.inr (Or.inl (ha ▸ h2))
      · by_cases h3 : a = '-'
        · rw [if_pos (Or.inr (Or.inr h3))] at ha; exact Or.inr (Or.inr (ha ▸ h3))
        · rw [if_neg (by simp [h1, h2, h3])] at ha; exact Or.inr (Or.inl ha.symm)

/-- Claim C9 (witness instance of the amended theorem). -/
theorem c9_amended_witness :
    dbFileName "s1!x" = sanitizeId "s1!x" ++ ".db" ∧
      (sanitizeId "s1!x").data =
        "s1!x".data.map (fun c => if c.isAlphanum || c = '_' || c = '-' then c else '_') ∧
      ∀ c ∈ (sanitizeId "s1!x").data, c.isAlphanum ∨ c = '_' ∨ c = '-' :=
  c9_amended "s1!x"

/-- The grouping scenario batch of claim C1:
`[Read(file_path="a.ts"), Grep(pattern="foo"), Read(file_path="a.ts"),
Bash(command="ls")]`. -/
def c1Batch : List BufferedCall :=
  [ ⟨ "Read", [("file_path", "a.ts")]⟩,
    ⟨ "Grep", [("pattern", "foo")]⟩,
    ⟨ "Read", [("file_path", "a.ts")]⟩,
    ⟨ "Bash", [("command", "ls")]⟩]

/-- The state after flushing the claim-C1 batch into an empty database. -/
def c1Flush : Db := (flushToEntries emptyDb 1 c1Batch).2

/-- Claim C1 (counterexample): on the claim's own batch, the Grep call is
grouped under `_unknown`, not under its `pattern` input — no entry is keyed
"foo". -/
theorem c1_counterexample :
    c1Flush.entries.map Entry.file_path =
      [some "a.ts", some "_unknown", some "ls"] ∧
    ∀ e ∈ c1Flush.entries, e.file_path ≠ some "foo" := by
  decide

/-- Claim C1 (amended): file tools — Glob and Grep included — are grouped
under `tool_input.file_path ?? tool_input.notebook_path ?? "_unknown"`; the
`pattern` key field is used only inside the stored call summary.  The claim's
batch therefore yields three entries: a research entry keyed "a.ts" with both
reads, a research entry keyed "_unknown" holding the Grep call (whose summary
records pattern "foo"), and a command entry keyed by the Bash command. -/
theorem c1_amended :
    c1Flush.entries.map (fun e => (e.file_path, e.entry_type, e.tool_calls)) =
      [ (some "a.ts", "research",
          [ ⟨ "Read", [("file_path", "a.ts")]⟩, ⟨ "Read", [("file_path", "a.ts")]⟩]),
        (some "_unknown", "research", [⟨ "Grep", [("pattern", "foo")]⟩]),
        (some "ls", "command", [⟨ "Bash", [("command", "ls")]⟩])] := by
  decide

/-- Claim C10: annotating an id that has no entries row (for example an
entry id invented by the LLM) leaves `entries` unchanged yet still inserts a
fresh FTS document and a mapping row for the nonexistent id, breaking the
FTS-map-to-entries bijection. -/
theorem c10_confirmed :
    ∀ (db : Db) (id : Nat) (d t g : String) (rel : List String) (cf : ℚ) (lr : Bool),
      (∀ e ∈ db.entries, e.id ≠ id) →
      (∀ m ∈ db.fts_map, m.2 ≠ id) →
      (annotateEntry db id d t g rel cf lr).entries = db.entries ∧
      (annotateEntry db id d t g rel cf lr).fts =
        db.fts ++ [(freshFtsRowid db.fts, ⟨ "", d, t, g⟩)] ∧
      (annotateEntry db id d t g rel cf lr).fts_map =
        db.fts_map ++ [(freshFtsRowid db.fts, id)] ∧
      ¬ ftsMapSound (annotateEntry db id d t g rel cf lr) := by
  intro db id d t g rel cf lr h1 h2
  have hents :
      (db.entries.map fun e =>
        if e.id = id then
          { e with description := some d, tags := some t,
                   semantic_group := some g, related_files := rel,
                   confidence := some cf, low_relevance := lr,
                   annotation_status := "annotated" }
        else e) = db.entries :=
    map_if_id _ _ (fun e he => h1 e he)
  have hfind : db.entries.find? (fun e => e.id == id) = none := by
    rw [List.find?_eq_none]; intro e he; simpa using h1 e he
  have hmap : db.fts_map.find? (fun m => m.2 == id) = none := by
    rw [List.find?_eq_none]; intro m hm; simpa using h2 m hm
  have heq : annotateEntry db id d t g rel cf lr =
      { db with
         entries := db.entries,
         fts := db.fts ++ [(freshFtsRowid db.fts, ⟨ "", d, t, g⟩)],
         fts_map := db.fts_map ++ [(freshFtsRowid db.fts, id)] } := by
    unfold annotateEntry
    rw [hents]
    simp only [hfind, hmap]
  refine ⟨ by rw [heq], by rw [heq], by rw [heq], ?_⟩
  intro hs
  obtain ⟨ e, he, heid⟩ := hs (freshFtsRowid db.fts, id) (by rw [heq]; simp)
  rw [heq] at he
  exact h1 e he heid

/-- Claim C10 (witness): a concrete one-entry database and the invented id 99. -/
def c10Db : Db :=
  ⟨ [⟨ 1, 1, some "a.ts", "research", [], none, none, [], none, none, false, "pending"⟩],
    [(1, ⟨ "a.ts", "", "", ""⟩)], [(1, 1)], [], [], 2⟩

/-- Claim C10 (witness): the theorem applied at `c10Db` and id 99. -/
theorem c10_confirmed_witness :
    (annotateEntry c10Db 99 "d" "t" "g" [] defaultConfidence false).entries = c10Db.entries ∧
    (annotateEntry c10Db 99 "d" "t" "g" [] defaultConfidence false).fts =
      c10Db.fts ++ [(freshFtsRowid c10Db.fts, ⟨ "", "d", "t", "g"⟩)] ∧
    (annotateEntry c10Db 99 "d" "t" "g" [] defaultConfidence false).fts_map =
      c10Db.fts_map ++ [(freshFtsRowid c10Db.fts, 99)] ∧
    ¬ ftsMapSound (annotateEntry c10Db 99 "d" "t" "g" [] defaultConfidence false) :=
  c10_confirmed c10Db 99 "d" "t" "g" [] defaultConfidence false (by decide) (by decide)

/-- The notebook-only file-change entry refuting claim C8's "Created" case. -/
def c8Entry : Entry :=
  ⟨ 1, 1, some "notes.ipynb", "file_change",
    [⟨ "NotebookEdit", [("notebook_path", "notes.ipynb")]⟩],
    none, none, [], none, none, false, "pending"⟩

/-- Claim C8 (counterexample): a group whose calls are exclusively write-tool
calls (one NotebookEdit) is described as "Changed …", not "Created …" as the
claim requires for only-write groups. -/
theorem c8_counterexample :
    (∀ c ∈ c8Entry.tool_calls, c.tool ∈ WRITE_TOOLS) ∧
    buildDescription c8Entry c8Entry.tool_calls = "Changed notes.ipynb" ∧
    buildDescription c8Entry c8Entry.tool_calls ≠
      "Created " ++ shortPathOf c8Entry := by
  decide

/-- Claim C8 (amended): for a `file_change` entry the description is
"Created <short>" exactly when the calls include a Write and no Edit;
"Modified <short> (N edit/edits)" with N the number of Edit calls when any
Edit is present; and "Changed <short>" otherwise (for example a
NotebookEdit-only group). -/
theorem c8_amended :
    ∀ (entry : Entry) (calls : List CallSummary),
      entry.entry_type = "file_change" →
      buildDescription entry calls =
        (if "Write" ∈ calls.map CallSummary.tool ∧
            "Edit" ∉ calls.map CallSummary.tool then
           "Created " ++ shortPathOf entry
         else if "Edit" ∈ calls.map CallSummary.tool then
           "Modified " ++ shortPathOf entry ++ " (" ++
             toString (calls.filter (fun c => c.tool == "Edit")).length ++ " edit" ++
             (if 1 < (calls.filter (fun c => c.tool == "Edit")).length then "s"
              else "") ++ ")"
         else "Changed " ++ shortPathOf entry) := by
  intro entry calls htype
  simp only [buildDescription, htype, if_pos rfl, reduceIte]

/-- The spec's single-edit scenario entry: `[Read, Edit]` on src/login.ts. -/
def c8wEntry : Entry :=
  ⟨ 1, 1, some "src/login.ts", "file_change",
    [ ⟨ "Read", [("file_path", "src/login.ts")]⟩,
      ⟨ "Edit", [("file_path", "src/login.ts"), ("old_string", "a"),
                 ("new_string", "b")]⟩],
    none, none, [], none, none, false, "pending"⟩

/-- Claim C8 (witness): applying the amended theorem to the spec's scenario
yields "Modified src/login.ts (1 edit)". -/
theorem c8_amended_witness :
    c8wEntry.entry_type = "file_change" ∧
    buildDescription c8wEntry c8wEntry.tool_calls = "Modified src/login.ts (1 edit)" := by
  refine ⟨ rfl, ?_⟩
  rw [c8_amended c8wEntry c8wEntry.tool_calls rfl]
  decide

/-- Every row returned by the BM25 search passes the SQL WHERE filters:
not low-relevance, annotated, and from an earlier prompt. -/
theorem searchFts_filters {db : Db} {matchQ : Nat → Bool} {rk : Nat → Int}
    {currentPrompt limit : Nat} {e : Entry}
    (he : e ∈ searchFts db matchQ rk currentPrompt limit) :
    e.low_relevance = false ∧ e.annotation_status = "annotated" ∧
      e.prompt_index < currentPrompt := by
  unfold searchFts at he
  have h1 := List.mem_of_mem_take he
  obtain ⟨ pr, hpr, hpe⟩ := List.mem_map.mp h1
  rw [List.mem_insertionSort] at hpr
  obtain ⟨ p, _, hf⟩ := List.mem_filterMap.mp hpr
  split at hf
  · split at hf
    · split at hf
      · split at hf
        · rename_i hcond
          cases hf
          exact hpe ▸ hcond
        · exact absurd hf (by simp)
      · exact absurd hf (by simp)
    · exact absurd hf (by simp)
  · exact absurd hf (by simp)

/-- Every row returned by the semantic-group expansion passes the same
filters. -/
theorem expandGroups_filters {db : Db} {groups : List String}
    {excludeIds : List Nat} {currentPrompt : Nat} {e : Entry}
    (he : e ∈ expandGroups db groups excludeIds currentPrompt) :
    e.low_relevance = false ∧ e.annotation_status = "annotated" ∧
      e.prompt_index < currentPrompt := by
  unfold expandGroups at he
  obtain ⟨ g, _, hg⟩ := List.mem_flatMap.mp he
  have h1 := List.mem_of_mem_take hg
  rw [List.mem_insertionSort, List.mem_filter] at h1
  have h2 := of_decide_eq_true h1.2
  exact ⟨ h2.2.1, h2.2.2.1, h2.2.2.2.1⟩

/-- Claim C3: every entry the retriever can place into the
`<relevant_context>` section — whether produced by the BM25 search or by the
semantic-group expansion — is from an earlier prompt, annotated, and not
low-relevance, for any query, match relation, rank, groups and exclusions. -/
theorem c3_confirmed :
    ∀ (db : Db) (matchQ : Nat → Bool) (rk : Nat → Int)
      (currentPrompt limit : Nat) (groups : List String)
      (excludeIds : List Nat) (e : Entry),
      (e ∈ searchFts db matchQ rk currentPrompt limit ∨
       e ∈ expandGroups db groups excludeIds currentPrompt) →
      e.prompt_index < currentPrompt ∧ e.annotation_status = "annotated" ∧
        e.low_relevance = false := by
  intro db matchQ rk currentPrompt limit groups excludeIds e he
  rcases he with h | h
  · obtain ⟨ h1, h2, h3⟩ := searchFts_filters h
    exact ⟨ h3, h2, h1⟩
  · obtain ⟨ h1, h2, h3⟩ := expandGroups_filters h
    exact ⟨ h3, h2, h1⟩

/-- Claim C3 (witness data): a database holding one annotated entry from
prompt 1 plus its FTS document and mapping. -/
def c3Db : Db :=
  ⟨ [⟨ 1, 1, some "a.ts", "research", [], some "Read a.ts", some "ts",
       [], some "src", none, false, "annotated"⟩],
    [(1, ⟨ "a.ts", "Read a.ts", "ts", "src"⟩)], [(1, 1)], [], [], 2⟩

/-- Claim C3 (witness entry): the row of `c3Db`. -/
def c3Entry : Entry :=
  ⟨ 1, 1, some "a.ts", "research", [], some "Read a.ts", some "ts",
    [], some "src", none, false, "annotated"⟩

/-- Claim C3 (witness): the theorem applied to a concrete search result. -/
theorem c3_confirmed_witness :
    (c3Entry ∈ searchFts c3Db (fun _ => true) (fun _ => 0) 2 50 ∨
     c3Entry ∈ expandGroups c3Db [] [] 2) ∧
    (c3Entry.prompt_index < 2 ∧ c3Entry.annotation_status = "annotated" ∧
      c3Entry.low_relevance = false) :=
  ⟨ Or.inl (by decide),
    c3_confirmed c3Db (fun _ => true) (fun _ => 0) 2 50 [] [] c3Entry
      (Or.inl (by decide))⟩

/-- Claim C2 (counterexample data): a 200-character previous-turn summary. -/
def c2LongDesc : String := String.mk (List.replicate 200 'x')

/-- Claim C2 (counterexample data): a database whose only row is that summary
entry at prompt 1. -/
def c2Db : Db :=
  ⟨ [⟨ 1, 1, none, "summary", [], some c2LongDesc, some "", [], none, none,
       false, "annotated"⟩],
    [(1, ⟨ "", "", "", ""⟩)], [(1, 1)], [], [], 2⟩

set_option maxRecDepth 8000 in
/-- Claim C2 (counterexample): with `tokenBudget = 50` (200 characters), the
returned context string has 290 characters — the continuity block is included
without any budget check and the wrapper tags and joining newlines are never
counted, so the claimed bound `length ≤ tokenBudget × charsPerToken` fails. -/
theorem c2_counterexample :
    (retrieveContext c2Db "the" 2 50 (fun _ _ => false) (fun _ => 0)).isSome ∧
    ((retrieveContext c2Db "the" 2 50 (fun _ _ => false) (fun _ => 0)).getD "").length
      = 290 ∧
    50 * CHARS_PER_TOKEN < 290 := by
  decide

/-- The BM25 selection loop never pushes the running count past the budget it
starts under. -/
theorem selectResults_used_le (B : Nat) :
    ∀ (results : List Entry) (used : Nat) (lines : List String)
      (ids : List Nat) (gs : List String), used ≤ B →
      (selectResults B results used lines ids gs).2.1 ≤ B := by
  intro results
  induction results with
  | nil => intro used lines ids gs h; simpa [selectResults] using h
  | cons e rest ih =>
    intro used lines ids gs h
    simp only [selectResults]
    split
    · exact ih _ _ _ _ h
    · split
      · simpa using h
      · rename_i hline hnb
        exact ih _ _ _ _ (by omega)

/-- The group-expansion selection loop never pushes the running count past
the budget it starts under. -/
theorem selectExpansion_used_le (B : Nat) :
    ∀ (entries : List Entry) (used : Nat) (lines : List String), used ≤ B →
      (selectExpansion B entries used lines).2 ≤ B := by
  intro entries
  induction entries with
  | nil => intro used lines h; simpa [selectExpansion] using h
  | cons e rest ih =>
    intro used lines h
    simp only [selectExpansion]
    split
    · exact ih _ _ h
    · split
      · simpa using h
      · rename_i hline hnb
        exact ih _ _ (by omega)

/-- Claim C2 (amended): the budget gate governs only `usedChars`, the running
total of the continuity-block length plus the selected context-line lengths;
wrapper tags and joining newlines are never counted, and the continuity block
is appended without a budget check.  Consequently, whenever the continuity
block (if any) fits within `tokenBudget × charsPerToken`, the final
`usedChars` of `retrieveContext` stays within that bound — the returned
string may exceed it only by the uncounted wrapper tags and newlines. -/
theorem c2_amended :
    ∀ (db : Db) (userPrompt : String) (currentPromptIndex tokenBudget : Nat)
      (matchQ : String → Nat → Bool) (rk : Nat → Int),
      continuityLen db currentPromptIndex ≤ tokenBudget * CHARS_PER_TOKEN →
      (retrieveContextCore db userPrompt currentPromptIndex tokenBudget matchQ rk).2 ≤
        tokenBudget * CHARS_PER_TOKEN := by
  intro db up c B mq rk h
  unfold continuityLen at h
  unfold retrieveContextCore
  rcases hprev : getPreviousSummary db c with _ | s <;> rw [hprev] at h <;>
    simp only <;>
    rcases hq : buildFtsQuery up with _ | q <;> simp only
  · simpa using h
  · split
    · simpa using h
    · have h1 := selectResults_used_le (B * CHARS_PER_TOKEN)
        (searchFts db (mq q) rk c FTS_RESULT_LIMIT) 0 [] [] [] (by omega)
      split
      · exact selectExpansion_used_le _ _ _ _ h1
      · simpa using h1
  · simpa using h
  · split
    · simpa using h
    · have h1 := selectResults_used_le (B * CHARS_PER_TOKEN)
        (searchFts db (mq q) rk c FTS_RESULT_LIMIT) (lastActivityBlock s).length
        [] [] [] h
      split
      · exact selectExpansion_used_le _ _ _ _ h1
      · simpa using h1

/-- Claim C2 (witness data): a small database with one annotated entry. -/
def c2wDb : Db :=
  ⟨ [⟨ 1, 1, some "login.ts", "research", [], some "Read login.ts", some "ts",
       [], some "src", none, false, "annotated"⟩],
    [(1, ⟨ "login.ts", "Read login.ts", "ts", "src"⟩)], [(1, 1)], [], [], 2⟩

/-- Claim C2 (witness): the amended bound at a concrete state and budget. -/
theorem c2_amended_witness :
    continuityLen c2wDb 2 ≤ 50 * CHARS_PER_TOKEN ∧
    (retrieveContextCore c2wDb "login" 2 50 (fun _ _ => true) (fun _ => 0)).2 ≤
      50 * CHARS_PER_TOKEN :=
  ⟨ by decide, c2_amended c2wDb "login" 2 50 (fun _ _ => true) (fun _ => 0) (by decide)⟩

/-- `annotateEntry` rewrites the entries table pointwise by id. -/
theorem annotateEntry_entries (db : Db) (id : Nat) (d t g : String)
    (r : List String) (cf : ℚ) (lr : Bool) :
    (annotateEntry db id d t g r cf lr).entries =
      db.entries.map (fun e =>
        if e.id = id then
          { e with description := some d, tags := some t,
                   semantic_group := some g, related_files := r,
                   confidence := some cf, low_relevance := lr,
                   annotation_status := "annotated" }
        else e) := rfl

/-- Folding `annotateEntry` over a worklist only rewrites rows in place:
every output row stems from an input row with the same id, prompt index and
entry type, its status either untouched or `annotated` — and necessarily
`annotated` when some worklist element carries the row's id. -/
theorem foldAnn_status (fd ft fg : Entry → String) (fr : Entry → List String)
    (fc : Entry → ℚ) (fl : Entry → Bool) :
    ∀ (P : List Entry) (db : Db) (e' : Entry),
      e' ∈ (P.foldl (fun d e =>
              annotateEntry d e.id (fd e) (ft e) (fg e) (fr e) (fc e) (fl e))
            db).entries →
      ∃ e ∈ db.entries, e'.id = e.id ∧ e'.prompt_index = e.prompt_index ∧
        e'.entry_type = e.entry_type ∧
        (e'.annotation_status = e.annotation_status ∨
          e'.annotation_status = "annotated") ∧
        ((∃ q ∈ P, q.id = e.id) → e'.annotation_status = "annotated") := by
  intro P
  induction P with
  | nil =>
    intro db e' he'
    exact ⟨ e', he', rfl, rfl, rfl, Or.inl rfl, by rintro ⟨ q, hq, -⟩; cases hq⟩
  | cons a P' ih =>
    intro db e' he'
    rw [List.foldl_cons] at he'
    obtain ⟨ e₁, he₁, hid, hpi, hty, hst, hforce⟩ := ih _ e' he'
    rw [annotateEntry_entries, List.mem_map] at he₁
    obtain ⟨ e, he, hfe⟩ := he₁
    by_cases hif : e.id = a.id
    · rw [if_pos hif] at hfe
      have hann : e₁.annotation_status = "annotated" := by rw [← hfe]
      have he'ann : e'.annotation_status = "annotated" := by
        rcases hst with h | h
        · rw [h, hann]
        · exact h
      refine ⟨ e, he, ?_, ?_, ?_, Or.inr he'ann, fun _ => he'ann⟩
      · rw [hid, ← hfe]
      · rw [hpi, ← hfe]
      · rw [hty, ← hfe]
    · rw [if_neg hif] at hfe
      cases hfe
      refine ⟨ e₁, he, hid, hpi, hty, hst, ?_⟩
      rintro ⟨ q, hq, hqid⟩
      rcases List.mem_cons.mp hq with rfl | hq'
      · exact absurd hqid.symm hif
      · exact hforce ⟨ q, hq', hqid⟩

/-- After `selfAnnotatePrompt`, no entry at its prompt index is pending:
an empty worklist means nothing at the index was pending to begin with, and a
non-empty worklist is annotated in full before the (pre-annotated) summary
row is appended. -/
theorem selfAnnotate_no_pending (db : Db) (idx : Nat) :
    ∀ e' ∈ (selfAnnotatePrompt db idx).entries,
      e'.prompt_index = idx → e'.annotation_status ≠ "pending" := by
  intro e' he' hpi
  unfold selfAnnotatePrompt at he'
  by_cases hP : (getPendingEntries db idx).isEmpty
  · rw [if_pos hP] at he'
    intro hpend
    have : e' ∈ getPendingEntries db idx := by
      unfold getPendingEntries
      rw [List.mem_filter]
      exact ⟨ he', by simp [hpi, hpend]⟩
    rw [List.isEmpty_iff] at hP
    rw [hP] at this
    cases this
  · rw [if_neg hP] at he'
    intro hpend
    have he'2 : e' ∈ ((getPendingEntries db idx).foldl (fun d e =>
        annotateEntry d e.id (buildDescription e e.tool_calls)
          (buildTags e e.tool_calls
            ((getState db ("prompt_" ++ toString idx)).getD ""))
          (buildGroup e) [] selfConfidence (isLowRelevance e e.tool_calls))
        db).entries ∨ e'.annotation_status = "annotated" := by
      rcases List.mem_append.mp he' with h | h
      · exact Or.inl h
      · right
        rcases List.mem_singleton.mp h with rfl
        rfl
    rcases he'2 with h | h
    · obtain ⟨ e, he, hid, hpi2, _, hst, hforce⟩ :=
        foldAnn_status _ _ _ _ _ _ _ _ _ h
      have hepend : e.annotation_status = "pending" := by
        rcases hst with hs | hs
        · rw [← hs, hpend]
        · exact absurd (hpend ▸ hs : ("pending" : String) = "annotated")
            (by decide)
      have heP : e ∈ getPendingEntries db idx := by
        unfold getPendingEntries
        rw [List.mem_filter]
        exact ⟨ he, by simp [← hpi2, hpi, hepend]⟩
      have := hforce ⟨ e, heP, rfl⟩
      rw [this] at hpend
      exact absurd hpend (by decide)
    · rw [h] at hpend
      exact absurd hpend (by decide)

/-- Claim C6: in `self` mode, after on-stop completes on a (non-empty) parsed
buffered-call batch, no entry at the current prompt index remains pending —
`flushToEntries` inserts pending entries and `selfAnnotatePrompt` annotates
every pending/annotating entry at the index before returning. -/
theorem c6_confirmed :
    ∀ (db : Db) (calls : List BufferedCall), calls ≠ [] →
      ∀ e ∈ (onStopSelf db calls).entries,
        e.prompt_index = getPromptIndex db → e.annotation_status ≠ "pending" := by
  intro db calls hne e he hpi
  unfold onStopSelf at he
  rw [if_neg (by simpa using hne)] at he
  exact selfAnnotate_no_pending _ _ e he hpi

/-- Claim C6 (witness data): a single Read call. -/
def c6Calls : List BufferedCall := [⟨ "Read", [("file_path", "a.ts")]⟩]

/-- Claim C6 (witness data): the first entry produced by running on-stop on
the empty database with that batch. -/
def c6Entry : Entry :=
  ((onStopSelf emptyDb c6Calls).entries).headD
    ⟨ 0, 0, none, "", [], none, none, [], none, none, false, ""⟩

/-- Claim C6 (witness): the theorem applied at a concrete run. -/
theorem c6_confirmed_witness :
    c6Calls ≠ [] ∧ c6Entry.annotation_status ≠ "pending" :=
  ⟨ by decide,
    c6_confirmed emptyDb c6Calls (by decide) c6Entry (by decide) (by decide)⟩

/-- `markFailed` rewrites the entries table pointwise. -/
theorem markFailed_entries (db : Db) (p : Nat) :
    (markFailed db p).entries = db.entries.map (fun e =>
      if e.prompt_index = p ∧
         (e.annotation_status = "pending" ∨ e.annotation_status = "annotating") then
        { e with annotation_status := "failed" }
      else e) := rfl

/-- `markAnnotating` with a non-empty id list rewrites the entries table
pointwise. -/
theorem markAnnotating_entries_ne (db : Db) (ids : List Nat)
    (h : ids.isEmpty = false) :
    (markAnnotating db ids).entries = db.entries.map (fun e =>
      if e.id ∈ ids then { e with annotation_status := "annotating" } else e) := by
  simp [markAnnotating, h]

/-- Claim C4 (counterexample data): a failed retry entry from prompt 1 and a
pending entry at the current prompt 2. -/
def c4Db : Db :=
  ⟨ [ ⟨ 1, 1, some "a.ts", "research", [], none, none, [], none, none, false,
        "failed"⟩,
      ⟨ 2, 2, some "b.ts", "research", [], none, none, [], none, none, false,
        "pending"⟩],
    [(1, ⟨ "a.ts", "", "", ""⟩), (2, ⟨ "b.ts", "", "", ""⟩)],
    [(1, 1), (2, 2)], [], [], 3⟩

/-- Claim C4 (counterexample): on an exception, the retry entry pulled in
from prompt 1 is part of the input set yet ends in status `annotating`, not
`failed` — `markFailed` only touches the current prompt index. -/
theorem c4_counterexample :
    (annotateInputs c4Db 2).map Entry.id = [2, 1] ∧
    ((annotatePrompt c4Db 2 none).entries.find? (fun e => e.id == 1)).map
        Entry.annotation_status = some "annotating" := by
  decide

/-- Claim C4 (amended): when the LLM call or parse raises, every input entry
at the current prompt index ends `failed`, while input entries pulled in as
retries from other prompt indices are left in status `annotating`. -/
theorem c4_amended :
    ∀ (db : Db) (promptIndex : Nat) (e' : Entry),
      e' ∈ (annotatePrompt db promptIndex none).entries →
      e'.id ∈ (annotateInputs db promptIndex).map Entry.id →
      e'.annotation_status =
        (if e'.prompt_index = promptIndex then "failed" else "annotating") := by
  intro db pidx e' he' hin
  unfold annotatePrompt at he'
  by_cases hemp : (annotateInputs db pidx).isEmpty
  · rw [List.isEmpty_iff] at hemp
    rw [hemp] at hin
    simp at hin
  · rw [if_neg (by simpa using hemp)] at he'
    have hidsne : ((annotateInputs db pidx).map Entry.id).isEmpty = false := by
      rcases h : annotateInputs db pidx with _ | ⟨ a, l⟩
      · rw [h] at hemp; simp at hemp
      · rfl
    rw [markFailed_entries, markAnnotating_entries_ne _ _ hidsne,
        List.map_map, List.mem_map] at he'
    obtain ⟨ e, _, hfe⟩ := he'
    simp only [Function.comp] at hfe
    have hid : e'.id = e.id := by
      rw [← hfe]
      split <;> split <;> rfl
    have hpe : e.id ∈ (annotateInputs db pidx).map Entry.id := hid ▸ hin
    rw [if_pos hpe] at hfe
    by_cases hcase : e.prompt_index = pidx
    · rw [if_pos (by exact ⟨ hcase, Or.inr rfl⟩)] at hfe
      have h1 : e'.annotation_status = "failed" := by rw [← hfe]
      have h2 : e'.prompt_index = pidx := by rw [← hfe]; exact hcase
      rw [h1, if_pos h2]
    · rw [if_neg (by simp [hcase])] at hfe
      have h1 : e'.annotation_status = "annotating" := by rw [← hfe]
      have h2 : e'.prompt_index = e.prompt_index := by rw [← hfe]
      rw [h1, if_neg (by rw [h2]; exact hcase)]

/-- Claim C4 (witness data): the retry entry's row after the failing run. -/
def c4ResEntry : Entry :=
  ((annotatePrompt c4Db 2 none).entries.find? (fun e => e.id == 1)).getD
    ⟨ 0, 0, none, "", [], none, none, [], none, none, false, ""⟩

/-- Claim C4 (witness): the amended theorem applied at the concrete run
(the retry entry from prompt 1 ends `annotating`). -/
theorem c4_amended_witness :
    c4ResEntry ∈ (annotatePrompt c4Db 2 none).entries ∧
    c4ResEntry.annotation_status =
      (if c4ResEntry.prompt_index = 2 then "failed" else "annotating") :=
  ⟨ by decide, c4_amended c4Db 2 c4ResEntry (by decide) (by decide)⟩

/-- `countSummary` only looks at the entries table. -/
theorem countSummary_entries_congr {d1 d2 : Db} (h : d1.entries = d2.entries)
    (idx : Nat) : countSummary d1 idx = countSummary d2 idx := by
  unfold countSummary
  rw [h]

/-- `annotateEntry` does not change any row's prompt index or entry type, so
it preserves the summary count. -/
theorem countSummary_annotateEntry (db : Db) (id : Nat) (d t g : String)
    (r : List String) (cf : ℚ) (lr : Bool) (idx : Nat) :
    countSummary (annotateEntry db id d t g r cf lr) idx = countSummary db idx := by
  unfold countSummary
  rw [annotateEntry_entries, List.countP_map]
  apply List.countP_congr
  intro e _
  by_cases h : e.id = id <;> simp [h]

/-- Folding `annotateEntry` over any worklist preserves the summary count. -/
theorem countSummary_foldAnn {α : Type} (fid : α → Nat) (fd ft fg : α → String)
    (fr : α → List String) (fc : α → ℚ) (fl : α → Bool) :
    ∀ (L : List α) (db : Db) (idx : Nat),
      countSummary (L.foldl (fun d a =>
        annotateEntry d (fid a) (fd a) (ft a) (fg a) (fr a) (fc a) (fl a)) db) idx =
      countSummary db idx := by
  intro L
  induction L with
  | nil => intro db idx; rfl
  | cons a L' ih =>
    intro db idx
    rw [List.foldl_cons, ih, countSummary_annotateEntry]

/-- `insertLink` leaves the entries table untouched. -/
theorem insertLink_entries (db : Db) (s t : Nat) (l : String) :
    (insertLink db s t l).entries = db.entries := by
  unfold insertLink
  split <;> rfl

/-- The link loop leaves the entries table untouched. -/
theorem applyLinks_entries (db : Db) (l : List LinkSpec) :
    (applyLinks db l).entries = db.entries := by
  induction l generalizing db with
  | nil => rfl
  | cons lk l' ih => rw [applyLinks, List.foldl_cons, ← applyLinks, ih, insertLink_entries]

/-- `insertSummaryEntry` adds exactly one summary row at its prompt index and
none elsewhere. -/
theorem countSummary_insertSummary (db : Db) (p : Nat) (s t : String) (idx : Nat) :
    countSummary (insertSummaryEntry db p s t).2 idx =
      countSummary db idx + (if p = idx then 1 else 0) := by
  unfold countSummary insertSummaryEntry
  rw [List.countP_append]
  congr 1
  by_cases h : p = idx <;> simp [List.countP, List.countP.go, h]

/-- `setFailedById` preserves the summary count. -/
theorem countSummary_setFailed (db : Db) (id : Nat) (idx : Nat) :
    countSummary (setFailedById db id) idx = countSummary db idx := by
  unfold countSummary setFailedById
  rw [List.countP_map]
  apply List.countP_congr
  intro e _
  by_cases h : e.id = id <;> simp [h]

/-- The trailing mark-unreturned-as-failed loop preserves the summary count. -/
theorem countSummary_failLoop (fb : Entry → Bool) :
    ∀ (L : List Entry) (db : Db) (idx : Nat),
      countSummary (L.foldl (fun d e =>
        if fb e then d else setFailedById d e.id) db) idx = countSummary db idx := by
  intro L
  induction L with
  | nil => intro db idx; rfl
  | cons a L' ih =>
    intro db idx
    rw [List.foldl_cons, ih]
    by_cases h : fb a <;> simp [h, countSummary_setFailed]

/-- `markAnnotating` preserves the summary count. -/
theorem countSummary_markAnnotating (db : Db) (ids : List Nat) (idx : Nat) :
    countSummary (markAnnotating db ids) idx = countSummary db idx := by
  unfold markAnnotating
  split
  · rfl
  · unfold countSummary
    simp only
    rw [List.countP_map]
    apply List.countP_congr
    intro e _
    by_cases h : e.id ∈ ids <;> simp [h]

/-- `markFailed` preserves the summary count. -/
theorem countSummary_markFailed (db : Db) (p : Nat) (idx : Nat) :
    countSummary (markFailed db p) idx = countSummary db idx := by
  unfold countSummary
  rw [markFailed_entries, List.countP_map]
  apply List.countP_congr
  intro e _
  by_cases h : e.prompt_index = p ∧
      (e.annotation_status = "pending" ∨ e.annotation_status = "annotating") <;>
    simp [h]

/-- Claim C5 (amended): any single `selfAnnotatePrompt` run and any single
`annotatePrompt` run inserts at most one summary entry at the prompt index —
but nothing deduplicates across runs, so the table can end up with two
summary rows for one turn (see the counterexample). -/
theorem c5_amended :
    ∀ (db : Db) (promptIndex : Nat) (llm : Option AnnotationResult),
      countSummary (selfAnnotatePrompt db promptIndex) promptIndex ≤
        countSummary db promptIndex + 1 ∧
      countSummary (annotatePrompt db promptIndex llm) promptIndex ≤
        countSummary db promptIndex + 1 := by
  intro db pidx llm
  constructor
  · by_cases h : (getPendingEntries db pidx).isEmpty
    · simp only [selfAnnotatePrompt, h, if_true]
      omega
    · have hb : (getPendingEntries db pidx).isEmpty = false := by
        simpa using h
      simp only [selfAnnotatePrompt, hb, Bool.false_eq_true, if_false]
      rw [countSummary_insertSummary]
      rw [countSummary_foldAnn (fun e : Entry => e.id)
        (fun e => buildDescription e e.tool_calls)
        (fun e => buildTags e e.tool_calls
          ((getState db ("prompt_" ++ toString pidx)).getD ""))
        (fun e => buildGroup e) (fun _ => []) (fun _ => selfConfidence)
        (fun e => isLowRelevance e e.tool_calls)]
      simp
  · by_cases h : (annotateInputs db pidx).isEmpty
    · simp only [annotatePrompt, h, if_true]
      omega
    · have hb : (annotateInputs db pidx).isEmpty = false := by
        simpa using h
      cases llm with
      | none =>
        simp only [annotatePrompt, hb, Bool.false_eq_true, if_false]
        rw [countSummary_markFailed, countSummary_markAnnotating]
        omega
      | some r =>
        obtain ⟨ anns, links, ps⟩ := r
        simp only [annotatePrompt, hb, Bool.false_eq_true, if_false]
        rw [countSummary_failLoop]
        have happ : ∀ d : Db,
            countSummary (applyAnns d (anns.getD [])) pidx = countSummary d pidx := by
          intro d
          unfold applyAnns
          exact countSummary_foldAnn (fun a : AnnItem => a.entry_id)
            (fun a => a.description) (fun a => a.tags)
            (fun a => a.semantic_group.getD "")
            (fun a => a.related_files.getD [])
            (fun a => a.confidence.getD defaultConfidence)
            (fun a => a.low_relevance.getD false) _ _ _
        cases ps with
        | none =>
          simp only [applyResult]
          rw [countSummary_entries_congr (applyLinks_entries _ _), happ,
            countSummary_markAnnotating]
          omega
        | some p =>
          simp only [applyResult]
          rw [countSummary_insertSummary,
            countSummary_entries_congr (applyLinks_entries _ _), happ,
            countSummary_markAnnotating]
          simp

/-- Claim C5 (counterexample data): a session with a failed entry left over
from prompt 1 and `prompt_index = 2` with a stored turn-2 prompt. -/
def c5Base : Db :=
  ⟨ [⟨ 1, 1, some "old.ts", "research", [⟨ "Read", [("file_path", "old.ts")]⟩],
       none, none, [], none, none, false, "failed"⟩],
    [(1, ⟨ "old.ts", "", "", ""⟩)], [(1, 1)], [],
    [("prompt_index", "2"), ("prompt_2", "fix login")], 2⟩

/-- Claim C5 (counterexample data): the turn-2 tool calls. -/
def c5Calls : List BufferedCall :=
  [ ⟨ "Read", [("file_path", "src/login.ts")]⟩,
    ⟨ "Edit", [("file_path", "src/login.ts"), ("old_string", "a"),
               ("new_string", "b")]⟩]

/-- Claim C5 (counterexample data): the state after on-stop in self mode —
one summary at prompt 2 from the self-annotator. -/
def c5AfterStop : Db := onStopSelf c5Base c5Calls

/-- Claim C5 (counterexample data): an LLM response annotating the retry and
carrying a prompt summary. -/
def c5Result : AnnotationResult :=
  ⟨ some [⟨ 1, "re-read old.ts", "old", none, none, none, some "old"⟩],
    none, some ⟨ "turn 2 summary", "login"⟩⟩

/-- Claim C5 (counterexample): the haiku-mode background run — entered
through its retry channel — inserts a second summary row at prompt 2 on top
of the self-annotator's one: the at-most-one-summary-per-prompt claim fails. -/
theorem c5_counterexample :
    countSummary c5AfterStop 2 = 1 ∧
    countSummary (annotatePrompt c5AfterStop 2 (some c5Result)) 2 = 2 := by
  decide

/-- The id an FTS rowid is mapped to (through `fts_map`), if any. -/
def tagOf (m : List (Nat × Nat)) (r : Nat) : Option Nat :=
  (m.find? (fun p => p.1 == r)).map Prod.snd

/-- The FTS index together with each document's mapped entry id, as a
multiset: the view of the FTS state that ignores rowid values. -/
def ftsTagged (db : Db) : Multiset (Option Nat × FtsDoc) :=
  ((db.fts.map (fun p => (tagOf db.fts_map p.1, p.2)) :
      List (Option Nat × FtsDoc)) : Multiset (Option Nat × FtsDoc))

/-- The abstract effect of one FTS reindex for id `id` with new document
`doc`: drop whatever was tagged `id`, add the new tagged document. -/
def stepA (id : Nat) (doc : FtsDoc) (A : Multiset (Option Nat × FtsDoc)) :
    Multiset (Option Nat × FtsDoc) :=
  A.filter (fun x => x.1 ≠ some id) + {(some id, doc)}

/-- Folding the abstract reindex over an id/document worklist. -/
def stepFold (l : List (Nat × FtsDoc)) (A : Multiset (Option Nat × FtsDoc)) :
    Multiset (Option Nat × FtsDoc) :=
  l.foldl (fun acc p => stepA p.1 p.2 acc) A

/-- The tagged documents a worklist contributes: one per id, carrying the
document of the id's last occurrence (earlier occurrences are overwritten). -/
def stepNew : List (Nat × FtsDoc) → Multiset (Option Nat × FtsDoc)
  | [] => 0
  | p :: l =>
    if p.1 ∈ l.map Prod.fst then stepNew l else {(some p.1, p.2)} + stepNew l

/-- Every contribution of `stepNew` is tagged with a worklist id. -/
theorem stepNew_tags :
    ∀ (l : List (Nat × FtsDoc)) (x : Option Nat × FtsDoc), x ∈ stepNew l →
      ∃ q ∈ l, x.1 = some q.1 := by
  intro l
  induction l with
  | nil => intro x hx; cases hx
  | cons p l ih =>
    intro x hx
    rw [stepNew] at hx
    split at hx
    · obtain ⟨ q, hq, h⟩ := ih x hx
      exact ⟨ q, List.mem_cons_of_mem _ hq, h⟩
    · rw [Multiset.mem_add] at hx
      rcases hx with hx | hx
      · rw [Multiset.mem_singleton] at hx
        exact ⟨ p, List.mem_cons_self _ _, by rw [hx]⟩
      · obtain ⟨ q, hq, h⟩ := ih x hx
        exact ⟨ q, List.mem_cons_of_mem _ hq, h⟩

/-- Closed form of the abstract fold: untouched-id elements survive, each
worklist id contributes exactly its last document. -/
theorem stepFold_eq :
    ∀ (l : List (Nat × FtsDoc)) (A : Multiset (Option Nat × FtsDoc)),
      stepFold l A =
        A.filter (fun x => ∀ q ∈ l, x.1 ≠ some q.1) + stepNew l := by
  intro l
  induction l with
  | nil =>
    intro A
    rw [stepFold, List.foldl_nil, stepNew, add_zero]
    exact (Multiset.filter_eq_self.mpr (fun a _ q hq => by cases hq)).symm
  | cons p l ih =>
    intro A
    rw [stepFold, List.foldl_cons, ← stepFold, ih, stepNew]
    rw [stepA, Multiset.filter_add, Multiset.filter_filter,
      Multiset.filter_singleton]
    have hA : Multiset.filter
        (fun x => (∀ q ∈ l, x.1 ≠ some q.1) ∧ x.1 ≠ some p.1) A =
        Multiset.filter (fun x => ∀ q ∈ p :: l, x.1 ≠ some q.1) A := by
      apply Multiset.filter_congr
      intro x _
      constructor
      · rintro ⟨ h1, h2⟩ q hq
        rcases List.mem_cons.mp hq with rfl | hq'
        · exact h2
        · exact h1 q hq'
      · intro h
        exact ⟨ fun q hq => h q (List.mem_cons_of_mem _ hq),
                h p (List.mem_cons_self _ _)⟩
    rw [hA]
    by_cases hp : p.1 ∈ l.map Prod.fst
    · have hcond : ¬ ∀ q ∈ l, (some p.1, p.2).1 ≠ some q.1 := by
        intro hall
        obtain ⟨ q, hq, hq1⟩ := List.mem_map.mp hp
        exact hall q hq (by simp [hq1])
      rw [if_neg hcond, if_pos hp, Multiset.empty_eq_zero, add_zero]
    · have hcond : ∀ q ∈ l, (some p.1, p.2).1 ≠ some q.1 := by
        intro q hq hcon
        apply hp
        have h1 : p.1 = q.1 := by simpa using hcon
        rw [h1]
        exact List.mem_map_of_mem Prod.fst hq
      rw [if_pos hcond, if_neg hp, add_assoc]

/-- The abstract fold is idempotent. -/
theorem stepFold_idem (l : List (Nat × FtsDoc))
    (A : Multiset (Option Nat × FtsDoc)) :
    stepFold l (stepFold l A) = stepFold l A := by
  rw [stepFold_eq, stepFold_eq, Multiset.filter_add,
    Multiset.filter_filter]
  have h1 : Multiset.filter
      (fun x => (∀ q ∈ l, x.1 ≠ some q.1) ∧ ∀ q ∈ l, x.1 ≠ some q.1) A =
      Multiset.filter (fun x => ∀ q ∈ l, x.1 ≠ some q.1) A := by
    apply Multiset.filter_congr
    intro x _
    exact ⟨ fun h => h.1, fun h => ⟨ h, h⟩⟩
  have h2 : Multiset.filter (fun x => ∀ q ∈ l, x.1 ≠ some q.1) (stepNew l) = 0 := by
    rw [Multiset.filter_eq_nil]
    intro x hx hall
    obtain ⟨ q, hq, hq1⟩ := stepNew_tags l x hx
    exact hall q hq hq1
  rw [h1, h2, add_zero]

/-- Every member is bounded by the right fold of `max`. -/
theorem le_foldr_max : ∀ (l : List Nat) (a : Nat), a ∈ l → a ≤ l.foldr max 0 := by
  intro l
  induction l with
  | nil => intro a ha; cases ha
  | cons b l ih =>
    intro a ha
    rcases List.mem_cons.mp ha with rfl | ha'
    · exact le_max_left _ _
    · exact le_trans (ih a ha') (le_max_right _ _)

/-- A fresh FTS rowid is strictly above every rowid in use. -/
theorem freshFtsRowid_gt (fts : List (Nat × FtsDoc)) :
    ∀ p ∈ fts, p.1 < freshFtsRowid fts := by
  intro p hp
  have := le_foldr_max (fts.map Prod.fst) p.1 (List.mem_map_of_mem Prod.fst hp)
  unfold freshFtsRowid
  omega

/-- In a list with distinct keys, entries with equal keys are equal. -/
theorem nodup_keys_inj {β : Type} {l : List (Nat × β)}
    (h : (l.map Prod.fst).Nodup) {x y : Nat × β} (hx : x ∈ l) (hy : y ∈ l)
    (hxy : x.1 = y.1) : x = y := by
  induction l with
  | nil => cases hx
  | cons a l ih =>
    rw [List.map_cons, List.nodup_cons] at h
    rcases List.mem_cons.mp hx with rfl | hx' <;>
      rcases List.mem_cons.mp hy with rfl | hy'
    · rfl
    · exact absurd (hxy ▸ List.mem_map_of_mem Prod.fst hy') h.1
    · exact absurd (hxy ▸ List.mem_map_of_mem Prod.fst hx') h.1
    · exact ih h.2 hx' hy'

/-- In a list with distinct keys, `find?` by a member's key returns that
member. -/
theorem find?_key_of_nodup {β : Type} [BEq β] {l : List (Nat × β)}
    (h : (l.map Prod.fst).Nodup) {x : Nat × β} (hx : x ∈ l) :
    l.find? (fun p => p.1 == x.1) = some x := by
  induction l with
  | nil => cases hx
  | cons a l ih =>
    rw [List.map_cons, List.nodup_cons] at h
    rcases List.mem_cons.mp hx with rfl | hx'
    · rw [List.find?_cons_of_pos _ (by simp)]
    · rw [List.find?_cons_of_neg, ih h.2 hx']
      simp only [beq_iff_eq]
      intro hcon
      exact h.1 (hcon ▸ List.mem_map_of_mem Prod.fst hx')

/-- `find?` commutes with a filter that keeps everything the search predicate
accepts. -/
theorem find?_filter_comm {α : Type} (l : List α) (p q : α → Bool)
    (h : ∀ x ∈ l, p x = true → q x = true) :
    (l.filter q).find? p = l.find? p := by
  induction l with
  | nil => rfl
  | cons a l ih =>
    by_cases hq : q a
    · rw [List.filter_cons_of_pos hq]
      by_cases hp : p a
      · rw [List.find?_cons_of_pos _ hp, List.find?_cons_of_pos _ hp]
      · rw [List.find?_cons_of_neg _ (by simpa using hp),
          List.find?_cons_of_neg _ (by simpa using hp)]
        exact ih (fun x hx => h x (List.mem_cons_of_mem _ hx))
    · rw [List.filter_cons_of_neg (by simpa using hq)]
      have hp : p a = false := by
        by_contra hcon
        exact hq (h a (List.mem_cons_self _ _) (by simpa using hcon))
      rw [List.find?_cons_of_neg _ (by simp [hp]),
        ih (fun x hx => h x (List.mem_cons_of_mem _ hx))]

/-- Splitting a distinct-key list at one member, as multisets: the list is
the member plus everything with a different key. -/
theorem coe_split_key {β : Type} [DecidableEq β] {l : List (Nat × β)}
    (h : (l.map Prod.fst).Nodup) {r : Nat} {d : β} (hmem : (r, d) ∈ l) :
    (l : Multiset (Nat × β)) =
      (r, d) ::ₘ (l.filter (fun p => p.1 ≠ r) : List (Nat × β)) := by
  induction l with
  | nil => cases hmem
  | cons a l ih =>
    rw [List.map_cons, List.nodup_cons] at h
    rcases List.mem_cons.mp hmem with rfl | hmem'
    · rw [List.filter_cons_of_neg (by simp)]
      have h1 : r ∉ l.map Prod.fst := h.1
      have hfl : l.filter (fun p => p.1 ≠ r) = l := by
        rw [List.filter_eq_self]
        intro p hp
        simp only [ne_eq, decide_eq_true_eq]
        intro hcon
        apply h1
        rw [← hcon]
        exact List.mem_map_of_mem Prod.fst hp
      rw [hfl, Multiset.cons_coe]
    · have ha : a.1 ≠ r := by
        intro hcon
        exact h.1 (by
          have := List.mem_map_of_mem Prod.fst hmem'
          simpa [hcon] using this)
      rw [List.filter_cons_of_pos (by simpa using ha), ← Multiset.cons_coe,
        ← Multiset.cons_coe, ih h.2 hmem', Multiset.cons_swap]

/-- `find?` by id commutes with an id-preserving rewrite of the rows. -/
theorem find?_id_map (l : List Entry) (f : Entry → Entry)
    (hid : ∀ e, (f e).id = e.id) (id : Nat) :
    (l.map f).find? (fun e => e.id == id) =
      (l.find? (fun e => e.id == id)).map f := by
  induction l with
  | nil => rfl
  | cons a l ih =>
    rw [List.map_cons]
    by_cases hp : a.id = id
    · rw [List.find?_cons_of_pos _ (by simp [hid, hp]),
        List.find?_cons_of_pos _ (by simp [hp])]
      rfl
    · rw [List.find?_cons_of_neg _ (by simp [hid, hp]),
        List.find?_cons_of_neg _ (by simp [hp]), ih]

/-- The file path used by an FTS reindex of entry `id`. -/
def fpOf (entries : List Entry) (id : Nat) : String :=
  match entries.find? (fun e => e.id == id) with
  | some e => e.file_path.getD ""
  | none => ""

/-- In a list with distinct values, entries with equal values are equal. -/
theorem nodup_vals_inj {l : List (Nat × Nat)}
    (h : (l.map Prod.snd).Nodup) {x y : Nat × Nat} (hx : x ∈ l) (hy : y ∈ l)
    (hxy : x.2 = y.2) : x = y := by
  induction l with
  | nil => cases hx
  | cons a l ih =>
    rw [List.map_cons, List.nodup_cons] at h
    rcases List.mem_cons.mp hx with rfl | hx' <;>
      rcases List.mem_cons.mp hy with rfl | hy'
    · rfl
    · exact absurd (hxy ▸ List.mem_map_of_mem Prod.snd hy') h.1
    · exact absurd (hxy ▸ List.mem_map_of_mem Prod.snd hx') h.1
    · exact ih h.2 hx' hy'

/-- The FTS table after `annotateEntry`'s delete phase. -/
def ftsAfterDelete (db : Db) (id : Nat) : List (Nat × FtsDoc) :=
  match db.fts_map.find? (fun m => m.2 == id) with
  | some m => db.fts.filter (fun p => p.1 ≠ m.1)
  | none => db.fts

/-- The mapping table after `annotateEntry`'s delete phase. -/
def mapAfterDelete (db : Db) (id : Nat) : List (Nat × Nat) :=
  match db.fts_map.find? (fun m => m.2 == id) with
  | some _ => db.fts_map.filter (fun m => m.2 ≠ id)
  | none => db.fts_map

/-- The file-path lookup inside `annotateEntry` reads the updated rows, but
the update preserves ids and file paths, so it equals `fpOf` on the original
table. -/
theorem annotateEntry_fp (db : Db) (id : Nat) (d t g : String)
    (r : List String) (cf : ℚ) (lr : Bool) :
    (match (db.entries.map (fun e =>
        if e.id = id then
          { e with description := some d, tags := some t,
                   semantic_group := some g, related_files := r,
                   confidence := some cf, low_relevance := lr,
                   annotation_status := "annotated" }
        else e)).find? (fun e => e.id == id) with
     | some e => e.file_path.getD ""
     | none => "") = fpOf db.entries id := by
  rw [find?_id_map]
  · unfold fpOf
    cases hf : db.entries.find? (fun e => e.id == id) with
    | none => rfl
    | some e =>
      simp only [Option.map_some]
      by_cases h : e.id = id <;> simp [h]
  · intro e
    by_cases h : e.id = id <;> simp [h]

/-- `annotateEntry`'s FTS and mapping tables: delete phase then one appended
row at a fresh rowid. -/
theorem annotateEntry_shape (db : Db) (id : Nat) (d t g : String)
    (r : List String) (cf : ℚ) (lr : Bool) :
    (annotateEntry db id d t g r cf lr).fts =
      ftsAfterDelete db id ++
        [(freshFtsRowid (ftsAfterDelete db id),
          ⟨ fpOf db.entries id, d, t, g⟩)] ∧
    (annotateEntry db id d t g r cf lr).fts_map =
      mapAfterDelete db id ++ [(freshFtsRowid (ftsAfterDelete db id), id)] := by
  unfold annotateEntry ftsAfterDelete mapAfterDelete
  dsimp only []
  rw [annotateEntry_fp db id d t g r cf lr]
  exact ⟨ rfl, rfl⟩

/-- The bridge: one concrete `annotateEntry` acts on the tagged-document view
as one abstract reindex step, and preserves well-formedness. -/
theorem annotateEntry_tagged (db : Db) (id : Nat) (d t g : String)
    (r : List String) (cf : ℚ) (lr : Bool) (hwf : WFdb db) :
    ftsTagged (annotateEntry db id d t g r cf lr) =
      stepA id ⟨ fpOf db.entries id, d, t, g⟩ (ftsTagged db) ∧
    WFdb (annotateEntry db id d t g r cf lr) := by
  obtain ⟨ hnd1, hnd2, hnd3, hpt⟩ := hwf
  obtain ⟨ hfts, hmap⟩ := annotateEntry_shape db id d t g r cf lr
  rcases hm : db.fts_map.find? (fun m => m.2 == id) with _ | m
  · -- no existing mapping for `id`
    have hafts : ftsAfterDelete db id = db.fts := by
      unfold ftsAfterDelete; rw [hm]
    have hamap : mapAfterDelete db id = db.fts_map := by
      unfold mapAfterDelete; rw [hm]
    rw [hafts] at hfts hmap
    rw [hamap] at hmap
    have hno : ∀ x ∈ db.fts_map, x.2 ≠ id := by
      intro x hx
      have := List.find?_eq_none.mp hm x hx
      simpa using this
    have hRf : ∀ p ∈ db.fts, p.1 ≠ freshFtsRowid db.fts := fun p hp =>
      Nat.ne_of_lt (freshFtsRowid_gt db.fts p hp)
    have hRm : ∀ x ∈ db.fts_map, x.1 ≠ freshFtsRowid db.fts := by
      intro x hx
      obtain ⟨ dd, hdd⟩ := hpt x hx
      exact hRf (x.1, dd) hdd
    have htagR : tagOf (db.fts_map ++ [(freshFtsRowid db.fts, id)])
        (freshFtsRowid db.fts) = some id := by
      unfold tagOf
      rw [List.find?_append]
      have h1 : db.fts_map.find? (fun x => x.1 == freshFtsRowid db.fts) = none := by
        rw [List.find?_eq_none]
        intro x hx
        simpa using hRm x hx
      rw [h1]
      simp [List.find?, Option.or]
    have htag1 : ∀ p ∈ db.fts,
        tagOf (db.fts_map ++ [(freshFtsRowid db.fts, id)]) p.1 =
          tagOf db.fts_map p.1 := by
      intro p hp
      unfold tagOf
      rw [List.find?_append]
      cases hfind : db.fts_map.find? (fun x => x.1 == p.1) with
      | some y => rfl
      | none =>
        rw [List.find?_cons_of_neg _ (by simpa using (hRf p hp).symm),
          List.find?_nil]
        rfl
    constructor
    · unfold ftsTagged stepA
      rw [hfts, hmap, List.map_append]
      have hmapeq : db.fts.map (fun p =>
          (tagOf (db.fts_map ++ [(freshFtsRowid db.fts, id)]) p.1, p.2)) =
          db.fts.map (fun p => (tagOf db.fts_map p.1, p.2)) :=
        List.map_congr_left (fun p hp => by rw [htag1 p hp])
      rw [hmapeq]
      have hfilter : Multiset.filter (fun x => x.1 ≠ some id)
          ((db.fts.map (fun p => (tagOf db.fts_map p.1, p.2)) :
            List (Option Nat × FtsDoc)) : Multiset (Option Nat × FtsDoc)) =
          ((db.fts.map (fun p => (tagOf db.fts_map p.1, p.2)) :
            List (Option Nat × FtsDoc)) : Multiset (Option Nat × FtsDoc)) := by
        rw [Multiset.filter_eq_self]
        intro x hx
        rw [Multiset.mem_coe, List.mem_map] at hx
        obtain ⟨ p, hp, rfl⟩ := hx
        intro hcon
        simp only at hcon
        unfold tagOf at hcon
        cases hfind : db.fts_map.find? (fun x => x.1 == p.1) with
        | none => rw [hfind] at hcon; cases hcon
        | some y =>
          rw [hfind] at hcon
          have hy2 : y.2 = id := by simpa using hcon
          exact hno y (List.mem_of_find?_eq_some hfind) hy2
      rw [hfilter, List.map_cons, List.map_nil, htagR, ← Multiset.coe_add,
        Multiset.coe_singleton]
    · refine ⟨ ?_, ?_, ?_, ?_⟩
      · rw [hfts, List.map_append, List.nodup_append]
        refine ⟨ hnd1, List.nodup_singleton _, ?_⟩
        intro a ha hb
        simp only [List.map_cons, List.map_nil, List.mem_singleton] at hb
        obtain ⟨ p, hp, rfl⟩ := List.mem_map.mp ha
        exact hRf p hp hb
      · rw [hmap, List.map_append, List.nodup_append]
        refine ⟨ hnd2, List.nodup_singleton _, ?_⟩
        intro a ha hb
        simp only [List.map_cons, List.map_nil, List.mem_singleton] at hb
        obtain ⟨ x, hx, rfl⟩ := List.mem_map.mp ha
        exact hRm x hx hb
      · rw [hmap, List.map_append, List.nodup_append]
        refine ⟨ hnd3, List.nodup_singleton _, ?_⟩
        intro a ha hb
        simp only [List.map_cons, List.map_nil, List.mem_singleton] at hb
        obtain ⟨ x, hx, rfl⟩ := List.mem_map.mp ha
        exact hno x hx hb
      · intro x hx
        rw [hmap] at hx
        rcases List.mem_append.mp hx with hx' | hx'
        · obtain ⟨ dd, hdd⟩ := hpt x hx'
          exact ⟨ dd, by rw [hfts]; exact List.mem_append_left _ hdd⟩
        · rw [List.mem_singleton] at hx'
          subst hx'
          exact ⟨ ⟨ fpOf db.entries id, d, t, g⟩, by
            rw [hfts]; exact List.mem_append_right _ (List.mem_singleton.mpr rfl)⟩
  · -- an existing mapping `m` for `id`
    have hmem : m ∈ db.fts_map := List.mem_of_find?_eq_some hm
    have hm2 : m.2 = id := by simpa using List.find?_some hm
    obtain ⟨ doc₀, hdoc₀⟩ := hpt m hmem
    have hafts : ftsAfterDelete db id = db.fts.filter (fun p => p.1 ≠ m.1) := by
      unfold ftsAfterDelete; rw [hm]
    have hamap : mapAfterDelete db id = db.fts_map.filter (fun x => x.2 ≠ id) := by
      unfold mapAfterDelete; rw [hm]
    rw [hafts] at hfts hmap
    rw [hamap] at hmap
    have hmem' : ∀ x ∈ db.fts_map.filter (fun x => x.2 ≠ id),
        x ∈ db.fts_map ∧ x.2 ≠ id := by
      intro x hx
      have h1 := List.mem_filter.mp hx
      exact ⟨ h1.1, by simpa using h1.2⟩
    have hne_m1 : ∀ x ∈ db.fts_map.filter (fun x => x.2 ≠ id), x.1 ≠ m.1 := by
      intro x hx hcon
      obtain ⟨ hx1, hx2⟩ := hmem' x hx
      exact hx2 (by rw [nodup_keys_inj hnd2 hx1 hmem hcon]; exact hm2)
    have hpt' : ∀ x ∈ db.fts_map.filter (fun x => x.2 ≠ id),
        ∃ dd, (x.1, dd) ∈ db.fts.filter (fun p => p.1 ≠ m.1) := by
      intro x hx
      obtain ⟨ hx1, _⟩ := hmem' x hx
      obtain ⟨ dd, hdd⟩ := hpt x hx1
      exact ⟨ dd, List.mem_filter.mpr ⟨ hdd, by simpa using hne_m1 x hx⟩⟩
    have hRf : ∀ p ∈ db.fts.filter (fun p => p.1 ≠ m.1),
        p.1 ≠ freshFtsRowid (db.fts.filter (fun p => p.1 ≠ m.1)) := fun p hp =>
      Nat.ne_of_lt (freshFtsRowid_gt _ p hp)
    have hRm : ∀ x ∈ db.fts_map.filter (fun x => x.2 ≠ id),
        x.1 ≠ freshFtsRowid (db.fts.filter (fun p => p.1 ≠ m.1)) := by
      intro x hx
      obtain ⟨ dd, hdd⟩ := hpt' x hx
      exact hRf (x.1, dd) hdd
    have hfcomm : (db.fts_map.filter (fun x => x.2 ≠ id)).find?
        (fun x => x.1 == m.1) = none := by
      rw [List.find?_eq_none]
      intro x hx
      simpa using hne_m1 x hx
    have htagR : tagOf (db.fts_map.filter (fun x => x.2 ≠ id) ++
        [(freshFtsRowid (db.fts.filter (fun p => p.1 ≠ m.1)), id)])
        (freshFtsRowid (db.fts.filter (fun p => p.1 ≠ m.1))) = some id := by
      unfold tagOf
      rw [List.find?_append]
      have h1 : (db.fts_map.filter (fun x => x.2 ≠ id)).find?
          (fun x => x.1 == freshFtsRowid (db.fts.filter (fun p => p.1 ≠ m.1))) =
          none := by
        rw [List.find?_eq_none]
        intro x hx
        simpa using hRm x hx
      rw [h1]
      simp [List.find?, Option.or]
    have htag1 : ∀ p ∈ db.fts.filter (fun p => p.1 ≠ m.1),
        tagOf (db.fts_map.filter (fun x => x.2 ≠ id) ++
          [(freshFtsRowid (db.fts.filter (fun p => p.1 ≠ m.1)), id)]) p.1 =
        tagOf db.fts_map p.1 := by
      intro p hp
      have hpm : p.1 ≠ m.1 := by
        have := (List.mem_filter.mp hp).2
        simpa using this
      unfold tagOf
      rw [List.find?_append]
      rw [find?_filter_comm db.fts_map (fun x => x.1 == p.1)
        (fun x => decide (x.2 ≠ id)) ?hside]
      case hside =>
        intro x hx hx1
        simp only [decide_eq_true_eq]
        intro hcon
        apply hpm
        have hxm : x = m := nodup_vals_inj hnd3 hx hmem (by rw [hcon, hm2])
        have : x.1 = p.1 := by simpa using hx1
        rw [← this, hxm]
      cases hfind : db.fts_map.find? (fun x => x.1 == p.1) with
      | some y => rfl
      | none =>
        rw [List.find?_cons_of_neg _ (by simpa using (hRf p hp).symm),
          List.find?_nil]
        rfl
    have htagm : tagOf db.fts_map m.1 = some id := by
      unfold tagOf
      rw [find?_key_of_nodup hnd2 hmem]
      simp [hm2]
    have hsplit : ((db.fts : List (Nat × FtsDoc)) : Multiset (Nat × FtsDoc)) =
        (m.1, doc₀) ::ₘ ((db.fts.filter (fun p => p.1 ≠ m.1) :
          List (Nat × FtsDoc)) : Multiset (Nat × FtsDoc)) :=
      coe_split_key hnd1 hdoc₀
    have htags_ne : ∀ p ∈ db.fts.filter (fun p => p.1 ≠ m.1),
        tagOf db.fts_map p.1 ≠ some id := by
      intro p hp hcon
      have hpm : p.1 ≠ m.1 := by
        have := (List.mem_filter.mp hp).2
        simpa using this
      unfold tagOf at hcon
      cases hfind : db.fts_map.find? (fun x => x.1 == p.1) with
      | none => rw [hfind] at hcon; cases hcon
      | some y =>
        rw [hfind] at hcon
        have hy2 : y.2 = id := by simpa using hcon
        have hym : y = m := nodup_vals_inj hnd3
          (List.mem_of_find?_eq_some hfind) hmem (by rw [hy2, hm2])
        have hy1 : y.1 = p.1 := by simpa using List.find?_some hfind
        exact hpm (by rw [← hy1, hym])
    constructor
    · unfold ftsTagged stepA
      rw [hfts, hmap, List.map_append]
      have hmapeq : (db.fts.filter (fun p => p.1 ≠ m.1)).map (fun p =>
          (tagOf (db.fts_map.filter (fun x => x.2 ≠ id) ++
            [(freshFtsRowid (db.fts.filter (fun p => p.1 ≠ m.1)), id)]) p.1,
           p.2)) =
          (db.fts.filter (fun p => p.1 ≠ m.1)).map (fun p =>
            (tagOf db.fts_map p.1, p.2)) :=
        List.map_congr_left (fun p hp => by rw [htag1 p hp])
      rw [hmapeq]
      have hlhs : ((db.fts.map (fun p => (tagOf db.fts_map p.1, p.2)) :
          List (Option Nat × FtsDoc)) : Multiset (Option Nat × FtsDoc)) =
          (some id, doc₀) ::ₘ
            (((db.fts.filter (fun p => p.1 ≠ m.1)).map (fun p =>
              (tagOf db.fts_map p.1, p.2)) :
              List (Option Nat × FtsDoc)) : Multiset (Option Nat × FtsDoc)) := by
        rw [← Multiset.map_coe, hsplit, Multiset.map_cons, Multiset.map_coe]
        simp only
        rw [htagm]
      rw [hlhs, Multiset.filter_cons_of_neg _ (by simp)]
      have hfilter : Multiset.filter (fun x => x.1 ≠ some id)
          ((((db.fts.filter (fun p => p.1 ≠ m.1)).map (fun p =>
            (tagOf db.fts_map p.1, p.2)) :
            List (Option Nat × FtsDoc))) : Multiset (Option Nat × FtsDoc)) =
          ((((db.fts.filter (fun p => p.1 ≠ m.1)).map (fun p =>
            (tagOf db.fts_map p.1, p.2)) :
            List (Option Nat × FtsDoc))) : Multiset (Option Nat × FtsDoc)) := by
        rw [Multiset.filter_eq_self]
        intro x hx
        rw [Multiset.mem_coe, List.mem_map] at hx
        obtain ⟨ p, hp, rfl⟩ := hx
        exact htags_ne p hp
      rw [hfilter, List.map_cons, List.map_nil, htagR, ← Multiset.coe_add,
        Multiset.coe_singleton]
    · refine ⟨ ?_, ?_, ?_, ?_⟩
      · rw [hfts, List.map_append, List.nodup_append]
        refine ⟨ hnd1.sublist ((List.filter_sublist _).map _), List.nodup_singleton _, ?_⟩
        intro a ha hb
        simp only [List.map_cons, List.map_nil, List.mem_singleton] at hb
        obtain ⟨ p, hp, rfl⟩ := List.mem_map.mp ha
        exact hRf p hp hb
      · rw [hmap, List.map_append, List.nodup_append]
        refine ⟨ hnd2.sublist ((List.filter_sublist _).map _), List.nodup_singleton _, ?_⟩
        intro a ha hb
        simp only [List.map_cons, List.map_nil, List.mem_singleton] at hb
        obtain ⟨ x, hx, rfl⟩ := List.mem_map.mp ha
        exact hRm x hx hb
      · rw [hmap, List.map_append, List.nodup_append]
        refine ⟨ hnd3.sublist ((List.filter_sublist _).map _), List.nodup_singleton _, ?_⟩
        intro a ha hb
        simp only [List.map_cons, List.map_nil, List.mem_singleton] at hb
        obtain ⟨ x, hx, rfl⟩ := List.mem_map.mp ha
        exact (hmem' x hx).2 hb
      · intro x hx
        rw [hmap] at hx
        rcases List.mem_append.mp hx with hx' | hx'
        · obtain ⟨ dd, hdd⟩ := hpt' x hx'
          exact ⟨ dd, by rw [hfts]; exact List.mem_append_left _ hdd⟩
        · rw [List.mem_singleton] at hx'
          subst hx'
          exact ⟨ ⟨ fpOf db.entries id, d, t, g⟩, by
            rw [hfts]; exact List.mem_append_right _ (List.mem_singleton.mpr rfl)⟩

/-- `fpOf` only depends on the id/file-path projection of the rows. -/
theorem fpOf_proj_congr :
    ∀ (l1 l2 : List Entry),
      l1.map (fun e => (e.id, e.file_path)) =
        l2.map (fun e => (e.id, e.file_path)) →
      ∀ id, fpOf l1 id = fpOf l2 id := by
  intro l1
  induction l1 with
  | nil =>
    intro l2 h id
    cases l2 with
    | nil => rfl
    | cons b l2 => simp at h
  | cons a l1 ih =>
    intro l2 h id
    cases l2 with
    | nil => simp at h
    | cons b l2 =>
      simp only [List.map_cons, List.cons.injEq] at h
      obtain ⟨ hab, hrest⟩ := h
      have hid : a.id = b.id := congrArg Prod.fst hab
      have hfp2 : a.file_path = b.file_path := congrArg Prod.snd hab
      unfold fpOf
      by_cases hc : a.id = id
      · rw [List.find?_cons_of_pos _ (by simp [hc]),
          List.find?_cons_of_pos _ (by simp [← hid, hc])]
        simp [hfp2]
      · rw [List.find?_cons_of_neg _ (by simp [hc]),
          List.find?_cons_of_neg _ (by simp [← hid, hc])]
        exact ih l2 hrest id

/-- The row rewrite one LLM annotation applies (the `??` defaults included). -/
def setA (a : AnnItem) (e : Entry) : Entry :=
  { e with description := some a.description, tags := some a.tags,
           semantic_group := some (a.semantic_group.getD ""),
           related_files := a.related_files.getD [],
           confidence := some (a.confidence.getD defaultConfidence),
           low_relevance := a.low_relevance.getD false,
           annotation_status := "annotated" }

/-- One annotation's pointwise effect on a row. -/
def updOne (a : AnnItem) (e : Entry) : Entry :=
  if e.id = a.entry_id then setA a e else e

/-- A whole annotation list's pointwise effect on a row. -/
def updList (l : List AnnItem) (e : Entry) : Entry :=
  l.foldl (fun x a => updOne a x) e

/-- `setA` keeps the row id. -/
theorem setA_id (a : AnnItem) (e : Entry) : (setA a e).id = e.id := rfl

/-- A second `setA` overwrites the first completely. -/
theorem setA_setA (a b : AnnItem) (e : Entry) : setA b (setA a e) = setA b e := rfl

/-- The annotation loop rewrites the entries table pointwise by `updList`. -/
theorem applyAnns_entries :
    ∀ (l : List AnnItem) (d : Db),
      (applyAnns d l).entries = d.entries.map (updList l) := by
  intro l
  induction l with
  | nil =>
    intro d
    have h : d.entries.map (updList []) = d.entries := by
      conv_rhs => rw [← List.map_id d.entries]
      exact List.map_congr_left (fun e _ => rfl)
    rw [h]
    rfl
  | cons a l ih =>
    intro d
    have ih' := ih (annotateEntry d a.entry_id a.description a.tags
      (a.semantic_group.getD "") (a.related_files.getD [])
      (a.confidence.getD defaultConfidence) (a.low_relevance.getD false))
    simp only [applyAnns, List.foldl_cons] at ih' ⊢
    rw [ih', annotateEntry_entries, List.map_map]
    exact List.map_congr_left (fun e _ => rfl)

/-- Closed form of `updList`: the last matching annotation wins. -/
theorem updList_char :
    ∀ (l : List AnnItem) (e : Entry),
      updList l e =
        ((l.filter (fun a => a.entry_id == e.id)).getLast?).elim e
          (fun a => setA a e) := by
  intro l
  induction l with
  | nil => intro e; rfl
  | cons b l ih =>
    intro e
    have hstep : updList (b :: l) e = updList l (updOne b e) := by
      simp only [updList, List.foldl_cons]
    by_cases hb : b.entry_id = e.id
    · have h1 : updOne b e = setA b e := by
        unfold updOne; rw [if_pos hb.symm]
      rw [hstep, h1, ih (setA b e)]
      have hP : (fun a : AnnItem => a.entry_id == (setA b e).id) =
          (fun a => a.entry_id == e.id) := by
        funext a; rw [setA_id]
      rw [hP, List.filter_cons_of_pos (by simpa using hb)]
      cases hf : l.filter (fun a => a.entry_id == e.id) with
      | nil => simp [List.getLast?, Option.elim]
      | cons x xs =>
        rw [List.getLast?_cons_cons]
        obtain ⟨ a, ha⟩ := Option.isSome_iff_exists.mp
          (List.getLast?_isSome.mpr (by simp) : ((x :: xs).getLast?).isSome)
        rw [ha]
        simp only [Option.elim]
        rw [setA_setA]
    · have h1 : updOne b e = e := by
        unfold updOne; rw [if_neg (fun hc => hb hc.symm)]
      rw [hstep, h1, ih e, List.filter_cons_of_neg (by simpa using hb)]

/-- Rewriting a row twice with the same annotation list is the same as once. -/
theorem updList_idem (l : List AnnItem) (e : Entry) :
    updList l (updList l e) = updList l e := by
  have hc := updList_char l e
  cases hlast : (l.filter (fun a => a.entry_id == e.id)).getLast? with
  | none =>
    rw [hlast] at hc
    simp only [Option.elim] at hc
    rw [hc]
    exact hc
  | some a =>
    rw [hlast] at hc
    simp only [Option.elim] at hc
    rw [hc]
    have hc2 := updList_char l (setA a e)
    rw [show (fun b : AnnItem => b.entry_id == (setA a e).id) =
        (fun b => b.entry_id == e.id) from by funext b; rw [setA_id],
      hlast] at hc2
    simp only [Option.elim] at hc2
    rw [hc2, setA_setA]

/-- `updList` keeps id and file path. -/
theorem updList_proj (l : List AnnItem) (e : Entry) :
    (updList l e).id = e.id ∧ (updList l e).file_path = e.file_path := by
  rw [updList_char]
  cases (l.filter (fun a => a.entry_id == e.id)).getLast? with
  | none => exact ⟨ rfl, rfl⟩
  | some a => exact ⟨ rfl, rfl⟩

/-- The annotation loop keeps every row's id and file path. -/
theorem applyAnns_proj (l : List AnnItem) (d : Db) :
    (applyAnns d l).entries.map (fun e => (e.id, e.file_path)) =
      d.entries.map (fun e => (e.id, e.file_path)) := by
  rw [applyAnns_entries, List.map_map]
  apply List.map_congr_left
  intro e _
  obtain ⟨ h1, h2⟩ := updList_proj l e
  simp [Function.comp, h1, h2]

/-- The annotation loop leaves the links table untouched. -/
theorem applyAnns_links (l : List AnnItem) (d : Db) :
    (applyAnns d l).links = d.links := by
  induction l generalizing d with
  | nil => rfl
  | cons a l ih =>
    simp only [applyAnns, List.foldl_cons]
    have := ih (annotateEntry d a.entry_id a.description a.tags
      (a.semantic_group.getD "") (a.related_files.getD [])
      (a.confidence.getD defaultConfidence) (a.low_relevance.getD false))
    simp only [applyAnns] at this
    rw [this]
    rfl

/-- `insertLink` leaves the FTS table untouched. -/
theorem insertLink_fts (db : Db) (s t : Nat) (l : String) :
    (insertLink db s t l).fts = db.fts := by
  unfold insertLink; split <;> rfl

/-- `insertLink` leaves the FTS mapping untouched. -/
theorem insertLink_ftsmap (db : Db) (s t : Nat) (l : String) :
    (insertLink db s t l).fts_map = db.fts_map := by
  unfold insertLink; split <;> rfl

/-- The link loop leaves the FTS table untouched. -/
theorem applyLinks_fts (d : Db) (lk : List LinkSpec) :
    (applyLinks d lk).fts = d.fts := by
  induction lk generalizing d with
  | nil => rfl
  | cons x lk ih =>
    simp only [applyLinks, List.foldl_cons]
    have := ih (insertLink d x.source_entry_id x.target_entry_id x.link_type)
    simp only [applyLinks] at this
    rw [this, insertLink_fts]

/-- The link loop leaves the FTS mapping untouched. -/
theorem applyLinks_ftsmap (d : Db) (lk : List LinkSpec) :
    (applyLinks d lk).fts_map = d.fts_map := by
  induction lk generalizing d with
  | nil => rfl
  | cons x lk ih =>
    simp only [applyLinks, List.foldl_cons]
    have := ih (insertLink d x.source_entry_id x.target_entry_id x.link_type)
    simp only [applyLinks] at this
    rw [this, insertLink_ftsmap]

/-- The inserted tuple is in the links table afterwards. -/
theorem insertLink_mem_self (db : Db) (s t : Nat) (l : String) :
    (s, t, l) ∈ (insertLink db s t l).links := by
  unfold insertLink
  split
  · assumption
  · exact List.mem_append_right _ (List.mem_singleton.mpr rfl)

/-- `insertLink` keeps existing link rows. -/
theorem insertLink_mono (db : Db) (s t : Nat) (l : String) {y : Nat × Nat × String}
    (hy : y ∈ db.links) : y ∈ (insertLink db s t l).links := by
  unfold insertLink
  split
  · exact hy
  · exact List.mem_append_left _ hy

/-- The link loop keeps existing link rows. -/
theorem applyLinks_mono :
    ∀ (lk : List LinkSpec) (d : Db) {y : Nat × Nat × String}, y ∈ d.links →
      y ∈ (applyLinks d lk).links := by
  intro lk
  induction lk with
  | nil => intro d y hy; exact hy
  | cons x lk ih =>
    intro d y hy
    simp only [applyLinks, List.foldl_cons]
    have := ih (insertLink d x.source_entry_id x.target_entry_id x.link_type)
      (insertLink_mono d _ _ _ hy)
    simpa only [applyLinks] using this

/-- Every tuple of the response's link list is present after the link loop. -/
theorem applyLinks_mem :
    ∀ (lk : List LinkSpec) (d : Db) (x : LinkSpec), x ∈ lk →
      (x.source_entry_id, x.target_entry_id, x.link_type) ∈
        (applyLinks d lk).links := by
  intro lk
  induction lk with
  | nil => intro d x hx; cases hx
  | cons b lk ih =>
    intro d x hx
    rcases List.mem_cons.mp hx with rfl | hx'
    · simp only [applyLinks, List.foldl_cons]
      have := applyLinks_mono lk
        (insertLink d x.source_entry_id x.target_entry_id x.link_type)
        (insertLink_mem_self d _ _ _)
      simpa only [applyLinks] using this
    · simp only [applyLinks, List.foldl_cons]
      have := ih (insertLink d b.source_entry_id b.target_entry_id b.link_type)
        x hx'
      simpa only [applyLinks] using this

/-- When every tuple is already present, the link loop is a no-op on the
whole state. -/
theorem applyLinks_eq_self :
    ∀ (lk : List LinkSpec) (d : Db),
      (∀ x ∈ lk,
        (x.source_entry_id, x.target_entry_id, x.link_type) ∈ d.links) →
      applyLinks d lk = d := by
  intro lk
  induction lk with
  | nil => intro d _; rfl
  | cons b lk ih =>
    intro d h
    simp only [applyLinks, List.foldl_cons]
    have hb : insertLink d b.source_entry_id b.target_entry_id b.link_type = d := by
      unfold insertLink
      rw [if_pos (h b (List.mem_cons_self _ _))]
    rw [hb]
    have := ih d (fun x hx => h x (List.mem_cons_of_mem _ hx))
    simpa only [applyLinks] using this

/-- Well-formedness only reads the FTS table and mapping. -/
theorem WFdb_congr (d1 d2 : Db) (h1 : d1.fts = d2.fts)
    (h2 : d1.fts_map = d2.fts_map) (h : WFdb d2) : WFdb d1 := by
  unfold WFdb
  rw [h1, h2]
  exact h

/-- The FTS index contents are the untagged projection of the tagged view. -/
theorem docMultiset_tagged (d : Db) :
    docMultiset d = Multiset.map Prod.snd (ftsTagged d) := by
  unfold docMultiset ftsTagged
  rw [Multiset.map_coe, List.map_map]
  exact congrArg _ (List.map_congr_left (fun p _ => rfl))

/-- The annotation loop acts on the tagged view as the abstract fold over the
response's id/document worklist, and preserves well-formedness. -/
theorem applyAnns_tagged :
    ∀ (l : List AnnItem) (d : Db), WFdb d →
      ftsTagged (applyAnns d l) =
        stepFold (l.map (fun a => (a.entry_id,
          (⟨ fpOf d.entries a.entry_id, a.description, a.tags,
             a.semantic_group.getD ""⟩ : FtsDoc)))) (ftsTagged d) ∧
      WFdb (applyAnns d l) := by
  intro l
  induction l with
  | nil => intro d h; exact ⟨ rfl, h⟩
  | cons a l ih =>
    intro d hwf
    obtain ⟨ hstep, hwf1⟩ := annotateEntry_tagged d a.entry_id a.description
      a.tags (a.semantic_group.getD "") (a.related_files.getD [])
      (a.confidence.getD defaultConfidence) (a.low_relevance.getD false) hwf
    obtain ⟨ ih1, ih2⟩ := ih (annotateEntry d a.entry_id a.description
      a.tags (a.semantic_group.getD "") (a.related_files.getD [])
      (a.confidence.getD defaultConfidence) (a.low_relevance.getD false)) hwf1
    have hcons : applyAnns d (a :: l) = applyAnns (annotateEntry d a.entry_id
      a.description a.tags (a.semantic_group.getD "") (a.related_files.getD [])
      (a.confidence.getD defaultConfidence) (a.low_relevance.getD false)) l := by
      simp only [applyAnns, List.foldl_cons]
    constructor
    · rw [hcons, ih1]
      have hproj : ∀ idx, fpOf (annotateEntry d a.entry_id a.description
          a.tags (a.semantic_group.getD "") (a.related_files.getD [])
          (a.confidence.getD defaultConfidence)
          (a.low_relevance.getD false)).entries idx = fpOf d.entries idx := by
        intro idx
        apply fpOf_proj_congr
        rw [annotateEntry_entries, List.map_map]
        apply List.map_congr_left
        intro e _
        by_cases h : e.id = a.entry_id <;> simp [Function.comp, h]
      have hmapg : l.map (fun b : AnnItem => (b.entry_id,
          (⟨ fpOf (annotateEntry d a.entry_id a.description a.tags
              (a.semantic_group.getD "") (a.related_files.getD [])
              (a.confidence.getD defaultConfidence)
              (a.low_relevance.getD false)).entries b.entry_id,
             b.description, b.tags, b.semantic_group.getD ""⟩ : FtsDoc))) =
          l.map (fun b : AnnItem => (b.entry_id,
          (⟨ fpOf d.entries b.entry_id, b.description, b.tags,
             b.semantic_group.getD ""⟩ : FtsDoc))) :=
        List.map_congr_left (fun b _ => by rw [hproj])
      rw [hmapg, hstep]
      simp only [List.map_cons, stepFold, List.foldl_cons]
    · rw [hcons]
      exact ih2

/-- Claim C7 (amended): for a well-formed state, applying the same parsed
response twice is idempotent on the entries rows, the links table and the
FTS index contents — provided the response carries no `prompt_summary`.
With a `prompt_summary` the second application adds a duplicate summary row
and FTS document (see the counterexample). -/
theorem c7_amended :
    ∀ (db : Db) (promptIndex : Nat) (r : AnnotationResult),
      WFdb db → r.prompt_summary = none →
      obsEq (applyResult (applyResult db promptIndex r) promptIndex r)
        (applyResult db promptIndex r) := by
  intro db pidx r hwf hps
  obtain ⟨ anns, links, ps⟩ := r
  have hps' : ps = none := hps
  subst hps'
  have happ : ∀ d : Db, applyResult d pidx ⟨ anns, links, none⟩ =
      applyLinks (applyAnns d (anns.getD [])) (links.getD []) := fun _ => rfl
  rw [happ, happ]
  set l := anns.getD [] with hl
  set lk := links.getD [] with hlk
  have hsup : ∀ x ∈ lk, (x.source_entry_id, x.target_entry_id, x.link_type) ∈
      (applyLinks (applyAnns db l) lk).links :=
    fun x hx => applyLinks_mem lk (applyAnns db l) x hx
  have hlA : (applyAnns (applyLinks (applyAnns db l) lk) l).links =
      (applyLinks (applyAnns db l) lk).links := applyAnns_links l _
  have hL2 : applyLinks (applyAnns (applyLinks (applyAnns db l) lk) l) lk =
      applyAnns (applyLinks (applyAnns db l) lk) l :=
    applyLinks_eq_self lk _ (fun x hx => by rw [hlA]; exact hsup x hx)
  rw [hL2]
  unfold obsEq
  refine ⟨ ?_, hlA, ?_⟩
  · rw [applyAnns_entries l (applyLinks (applyAnns db l) lk),
      applyLinks_entries (applyAnns db l) lk, applyAnns_entries l db,
      List.map_map]
    apply List.map_congr_left
    intro e _
    exact updList_idem l e
  · have hwfA1 : WFdb (applyAnns db l) := (applyAnns_tagged l db hwf).2
    have hwfL1 : WFdb (applyLinks (applyAnns db l) lk) :=
      WFdb_congr _ _ (applyLinks_fts _ _) (applyLinks_ftsmap _ _) hwfA1
    have ht1 := (applyAnns_tagged l db hwf).1
    have ht2 := (applyAnns_tagged l (applyLinks (applyAnns db l) lk) hwfL1).1
    have htL1 : ftsTagged (applyLinks (applyAnns db l) lk) =
        ftsTagged (applyAnns db l) := by
      unfold ftsTagged
      rw [applyLinks_fts, applyLinks_ftsmap]
    have hproj : ∀ idx, fpOf (applyLinks (applyAnns db l) lk).entries idx =
        fpOf db.entries idx := by
      intro idx
      apply fpOf_proj_congr
      rw [applyLinks_entries]
      exact applyAnns_proj l db
    have hmapg : l.map (fun a : AnnItem => (a.entry_id,
        (⟨ fpOf (applyLinks (applyAnns db l) lk).entries a.entry_id,
           a.description, a.tags, a.semantic_group.getD ""⟩ : FtsDoc))) =
        l.map (fun a : AnnItem => (a.entry_id,
        (⟨ fpOf db.entries a.entry_id, a.description, a.tags,
           a.semantic_group.getD ""⟩ : FtsDoc))) :=
      List.map_congr_left (fun a _ => by rw [hproj])
    rw [docMultiset_tagged, docMultiset_tagged, ht2, hmapg, htL1, ht1,
      stepFold_idem]

instance instDecidableObsEq : ∀ d1 d2 : Db, Decidable (obsEq d1 d2) :=
  fun d1 d2 => by
    unfold obsEq
    infer_instance

/-- Claim C7 (counterexample data): a response whose only payload is a
prompt summary. -/
def c7Resp : AnnotationResult := ⟨ some [], some [], some ⟨ "s", "t"⟩⟩

/-- Claim C7 (counterexample): applying a response that carries a
`prompt_summary` twice inserts a second summary row and FTS document, so the
claimed idempotence fails. -/
theorem c7_counterexample :
    ¬ obsEq (applyResult (applyResult emptyDb 1 c7Resp) 1 c7Resp)
        (applyResult emptyDb 1 c7Resp) := by
  decide

/-- Claim C7 (witness data): a one-row well-formed database. -/
def c7wDb : Db :=
  ⟨ [⟨ 1, 1, some "a.ts", "research", [], none, none, [], none, none, false,
       "pending"⟩],
    [(1, ⟨ "a.ts", "", "", ""⟩)], [(1, 1)], [], [], 2⟩

/-- Claim C7 (witness data): a summary-free response with one annotation and
one link. -/
def c7wResp : AnnotationResult :=
  ⟨ some [⟨ 1, "read a.ts", "ts", none, none, none, some "src"⟩],
    some [⟨ 1, 1, "related"⟩], none⟩

/-- Claim C7 (witness): the amended theorem at a concrete state and
response. -/
theorem c7_amended_witness :
    WFdb c7wDb ∧ c7wResp.prompt_summary = none ∧
    obsEq (applyResult (applyResult c7wDb 1 c7wResp) 1 c7wResp)
      (applyResult c7wDb 1 c7wResp) :=
  ⟨ by decide, rfl, c7_amended c7wDb 1 c7wResp (by decide) rfl⟩
